import Mathlib

/-!
Verification of the resource-harvesting pipeline in
scripts/fetch-nate-resources.py.

The Python source is shallowly embedded: strings are Lean String values
(analysed mostly through their List Char data), the stdlib regex searches
used by the script are modelled as explicit leftmost-match searchers over
character lists, effectful calls (CDP browser, HTTP, database, filesystem)
become explicit oracle parameters, and exceptions become Except values.
All definitions are executable; the embedding assumes ASCII input for the
regex word-character class, matching every URL shape the script handles.
-/

/-- Characters matched by the regex class [a-f0-9] (lowercase hex, as in the
Notion id pattern of normalize_url). -/
def isHexDigit (c : Char) : Bool :=
  c.isDigit || ('a' ≤ c && c ≤ 'f')

/-- ASCII word characters, the class the regex word boundary anchor tests. -/
def isWordChar (c : Char) : Bool :=
  c.isAlphanum || c = '_'

/-- Characters matched by the id class [a-zA-Z0-9_-] of the Google doc-id
pattern in normalize_url. -/
def isIdChar (c : Char) : Bool :=
  c.isAlphanum || c = '_' || c = '-'

/-- Match a literal sequence of characters at the front of a list, returning
the remainder on success. -/
def matchChars : List Char → List Char → Option (List Char)
  | [], l => some l
  | _ :: _, [] => none
  | p :: ps, c :: cs => if p = c then matchChars ps cs else none

/-- Substring test: the model of the Python expression (needle in haystack). -/
def containsSub (needle : List Char) : List Char → Bool
  | [] => needle.isEmpty
  | c :: rest => (matchChars needle (c :: rest)).isSome || containsSub needle rest

/-- Greedy run of id characters, the model of the + quantifier over
[a-zA-Z0-9_-] in the doc-id patterns. -/
def takeIdChars : List Char → List Char
  | [] => []
  | c :: rest => if isIdChar c then c :: takeIdChars rest else []

/-- Word-boundary test for the position right after a candidate match: true at
end of input or before a non-word character. -/
def atWordBoundary : List Char → Bool
  | [] => true
  | c :: _ => !isWordChar c

/-- Success condition of the pattern [a-f0-9]{32}\b at the current position:
32 hex characters followed by a word boundary. -/
def hex32Cond (l : List Char) : Bool :=
  32 ≤ l.length && (l.take 32).all isHexDigit && atWordBoundary (l.drop 32)

/-- Attempt of the pattern [a-f0-9]{32}\b at the current position. -/
def hex32At (l : List Char) : Option (List Char) :=
  if hex32Cond l then some (l.take 32) else none

/-- Capture of one or more id characters at the current position (greedy),
as the regex + quantifier over [a-zA-Z0-9_-]. -/
def idCapture : List Char → Option (List Char)
  | [] => none
  | c :: rest => if isIdChar c then some (c :: takeIdChars rest) else none

/-- Attempt, at the current position, of a literal pattern followed by one or
more id characters (captured greedily), as in /d/([a-zA-Z0-9_-]+). -/
def patIdAt (pat : List Char) (l : List Char) : Option (List Char) :=
  (matchChars pat l).bind idCapture

/-- Attempt of /(?:folders|d)/([a-zA-Z0-9_-]+) at the current position: the
regex alternation tries the folders branch first, then the d branch. -/
def driveIdAt (l : List Char) : Option (List Char) :=
  match patIdAt ("/folders/".toList) l with
  | some r => some r
  | none => patIdAt ("/d/".toList) l

/-- Leftmost-match search: re.search tries the position-anchored matcher at
every start position left to right. -/
def searchAt (f : List Char → Option (List Char)) : List Char → Option (List Char)
  | [] => f []
  | c :: rest =>
    match f (c :: rest) with
    | some r => some r
    | none => searchAt f rest

/-- re.search of the Notion 32-hex-digit id pattern. -/
def findHex32 (l : List Char) : Option (List Char) :=
  searchAt hex32At l

/-- re.search of the Google doc-id pattern /d/([a-zA-Z0-9_-]+). -/
def findDId (l : List Char) : Option (List Char) :=
  searchAt (patIdAt ("/d/".toList)) l

/-- re.search of the Drive pattern /(?:folders|d)/([a-zA-Z0-9_-]+). -/
def findDriveId (l : List Char) : Option (List Char) :=
  searchAt driveIdAt l

/-- Third stage of normalize_url (lines 94-100): the Drive folders/d pattern,
tried only when the URL contains "drive.google.com", else — or when the
pattern finds nothing — the fallback key ("other", url). -/
def normalize_step3 (url : String) : String × String :=
  if containsSub ("drive.google.com".toList) url.toList then
    match findDriveId url.toList with
    | some d => ("gdrive", String.mk d)
    | none => ("other", url)
  else ("other", url)

/-- Second stage of normalize_url (lines 88-92): the /d/ doc-id pattern, used
when it matches and the URL contains "google.com"; the key is gsheet when
"spreadsheets" occurs anywhere in the URL, else gdoc. -/
def normalize_step2 (url : String) : String × String :=
  match findDId url.toList, containsSub ("google.com".toList) url.toList with
  | some d, true =>
    ((if containsSub ("spreadsheets".toList) url.toList then "gsheet" else "gdoc"),
      String.mk d)
  | _, _ => normalize_step3 url

/-- Embedding of normalize_url (fetch-nate-resources.py lines 81-100): extract
a canonical (sourceType, identifier) key from a URL. The hex pattern is
searched first but its result is used only when the whole URL contains
"notion"; then the second and third stages as above. -/
def normalize_url (url : String) : String × String :=
  match findHex32 url.toList, containsSub ("notion".toList) url.toList with
  | some h, true => ("notion", String.mk h)
  | _, _ => normalize_step2 url

/-- Characters that end the network-location part of a URL. -/
def isNetlocStop (c : Char) : Bool :=
  c = '/' || c = '?' || c = '#'

/-- Characters allowed in a URL scheme after the leading letter. -/
def isSchemeChar (c : Char) : Bool :=
  c.isAlphanum || c = '+' || c = '-' || c = '.'

/-- Strip a valid "scheme:" from the front of a URL, as urlparse does: the
scheme must start with a letter, continue with scheme characters, and end at
the first colon. Returns none when no valid scheme is present. -/
def splitScheme (l : List Char) : Option (List Char) :=
  match l with
  | c :: rest =>
    if c.isAlpha then
      match (rest.dropWhile isSchemeChar) with
      | ':' :: r => some r
      | _ => none
    else none
  | [] => none

/-- The part of the list before the first stop character. -/
def takeUntilStop (l : List Char) : List Char :=
  l.takeWhile (fun c => !isNetlocStop c)

/-- The part after the last occurrence of the at sign (the whole list when
there is none), as urlparse uses to drop user info from a netloc. -/
def afterLastAt (l : List Char) : List Char :=
  l.foldl (fun acc c => if c = '@' then [] else acc ++ [c]) []

/-- The part of the list before the first colon, as urlparse uses to drop a
port from a netloc. -/
def beforeColon (l : List Char) : List Char :=
  l.takeWhile (fun c => c ≠ ':')

/-- Left-to-right, non-overlapping removal of every occurrence of "www.",
the model of the Python expression host.replace("www.", ""). -/
def stripWww : List Char → List Char
  | 'w' :: 'w' :: 'w' :: '.' :: rest => stripWww rest
  | c :: rest => c :: stripWww rest
  | [] => []

/-- Embedding of get_domain (lines 126-130): hostname of the URL per
urlparse (empty when the URL has no "//" network location), lowercased, with
every occurrence of "www." removed.  Modelled from the Python stdlib
urlparse behaviour for the URL shapes the script handles (no IPv6
brackets). -/
def get_domain (url : String) : String :=
  let l := url.toList
  let afterScheme := (splitScheme l).getD l
  let netloc :=
    match afterScheme with
    | '/' :: '/' :: r => takeUntilStop r
    | _ => []
  let host := (beforeColon (afterLastAt netloc)).map Char.toLower
  String.mk (stripWww host)

/-- A normalized key: (sourceType, identifier). -/
abbrev UrlKey := String × String

/-- The per-URL record built by get_db_resource_urls for each first-seen
reference. -/
structure UrlInfo where
  url : String
  post_asset_id : String
  project_id : String
  post_name : String
deriving DecidableEq, Repr

/-- Embedding of the uncovered-set computation of main (lines 707-715):
keep the referenced entries whose key is not among the scraped keys, apply
the optional domain filter, then drop gdrive keys unconditionally. -/
def compute_uncovered (db_urls : List (UrlKey × UrlInfo)) (scraped_keys : List UrlKey)
    (domainFilter : Option String) : List (UrlKey × UrlInfo) :=
  let u := db_urls.filter (fun kv : UrlKey × UrlInfo => !(decide (kv.1 ∈ scraped_keys)))
  let u :=
    match domainFilter with
    | some d => u.filter (fun kv : UrlKey × UrlInfo => decide (kv.1.1 = d))
    | none => u
  u.filter (fun kv : UrlKey × UrlInfo => decide (kv.1.1 ≠ "gdrive"))

/-- Python truthiness of the error slot of a fetch result: None and the
empty string are falsy. -/
def truthy : Option String → Bool
  | none => false
  | some s => s ≠ ""

/-- Outcome of one urllib HTTP request: a 2xx response with a raw byte body,
an HTTPError (non-2xx status) carrying the status code and reason, or any
other exception (network-level failure) carrying its message. -/
inductive HttpOutcome where
  | success (body : List Nat)
  | httpError (code : Nat) (reason : String)
  | netError (msg : String)
deriving DecidableEq, Repr

/-- The Unicode replacement character emitted by lossy decoding. -/
def replChar : Char := Char.ofNat 0xFFFD

/-- Continuation-byte test for UTF-8. -/
def isContByte (b : Nat) : Bool :=
  0x80 ≤ b && b ≤ 0xBF

/-- Allowed second byte of a three-byte UTF-8 sequence, which depends on the
lead byte (overlong and surrogate encodings are rejected). -/
def cont2ok3 (b b2 : Nat) : Bool :=
  if b = 0xE0 then 0xA0 ≤ b2 && b2 ≤ 0xBF
  else if b = 0xED then 0x80 ≤ b2 && b2 ≤ 0x9F
  else isContByte b2

/-- Allowed second byte of a four-byte UTF-8 sequence, which depends on the
lead byte (overlong and out-of-range encodings are rejected). -/
def cont2ok4 (b b2 : Nat) : Bool :=
  if b = 0xF0 then 0x90 ≤ b2 && b2 ≤ 0xBF
  else if b = 0xF4 then 0x80 ≤ b2 && b2 ≤ 0x8F
  else isContByte b2

/-- Fuel-indexed UTF-8 decoding step; the fuel only bounds the number of
decoding steps (at least one byte is consumed per step), so any fuel of at
least the list length gives the untimed behaviour. Each maximal invalid
subsequence becomes one replacement character and decoding resumes at the
first byte not part of it, mirroring the CPython codec. -/
def decodeUtf8Go : Nat → List Nat → List Char
  | _, [] => []
  | 0, _ :: _ => []
  | fuel + 1, b :: rest =>
    if b < 0x80 then Char.ofNat b :: decodeUtf8Go fuel rest
    else if b < 0xC2 then replChar :: decodeUtf8Go fuel rest
    else if b < 0xE0 then
      match rest with
      | [] => [replChar]
      | b2 :: rest2 =>
        if isContByte b2 then
          Char.ofNat ((b - 0xC0) * 64 + (b2 - 0x80)) :: decodeUtf8Go fuel rest2
        else replChar :: decodeUtf8Go fuel rest
    else if b < 0xF0 then
      match rest with
      | [] => [replChar]
      | b2 :: rest2 =>
        if cont2ok3 b b2 then
          match rest2 with
          | [] => [replChar]
          | b3 :: rest3 =>
            if isContByte b3 then
              Char.ofNat ((b - 0xE0) * 4096 + (b2 - 0x80) * 64 + (b3 - 0x80)) ::
                decodeUtf8Go fuel rest3
            else replChar :: decodeUtf8Go fuel rest2
        else replChar :: decodeUtf8Go fuel rest
    else if b < 0xF5 then
      match rest with
      | [] => [replChar]
      | b2 :: rest2 =>
        if cont2ok4 b b2 then
          match rest2 with
          | [] => [replChar]
          | b3 :: rest3 =>
            if isContByte b3 then
              match rest3 with
              | [] => [replChar]
              | b4 :: rest4 =>
                if isContByte b4 then
                  Char.ofNat ((b - 0xF0) * 262144 + (b2 - 0x80) * 4096 +
                      (b3 - 0x80) * 64 + (b4 - 0x80)) :: decodeUtf8Go fuel rest4
                else replChar :: decodeUtf8Go fuel rest3
            else replChar :: decodeUtf8Go fuel rest2
        else replChar :: decodeUtf8Go fuel rest
    else replChar :: decodeUtf8Go fuel rest

/-- Model of bytes.decode("utf-8", errors="replace"): total lossy UTF-8
decoding (the list length is always enough fuel, since every step consumes
at least one byte). -/
def decodeUtf8Replace (l : List Nat) : List Char :=
  decodeUtf8Go l.length l

/-- UTF-8 encoding of one scalar value, as CPython produces for str.encode. -/
def utf8EncodeChar (c : Char) : List Nat :=
  let n := c.toNat
  if n < 0x80 then [n]
  else if n < 0x800 then [0xC0 + n / 64, 0x80 + n % 64]
  else if n < 0x10000 then [0xE0 + n / 4096, 0x80 + (n / 64) % 64, 0x80 + n % 64]
  else [0xF0 + n / 262144, 0x80 + (n / 4096) % 64, 0x80 + (n / 64) % 64, 0x80 + n % 64]

/-- UTF-8 encoding of a character list. -/
def utf8Encode (s : List Char) : List Nat :=
  (s.map utf8EncodeChar).flatten

/-- Embedding of fetch_gdoc (lines 440-461): extract the doc id with the /d/
pattern, build the export URL (CSV export for spreadsheet URLs, text export
otherwise), and map the HTTP outcome of that URL — given by the oracle
http — to the (content, error) pair the script returns: lossy-decoded body
on success, an access-denied message for status 403, an "HTTP code: reason"
message for other HTTPError statuses, and an "Error: msg" message for any
other exception. -/
def gdoc_response_map (resp : HttpOutcome) : Option String × Option String :=
  match resp with
  | .success body => (some (String.mk (decodeUtf8Replace body)), none)
  | .httpError code reason =>
    if code = 403 then (none, some "Access denied (requires login)")
    else (none, some ("HTTP " ++ toString code ++ ": " ++ reason))
  | .netError msg => (none, some ("Error: " ++ msg))

def fetch_gdoc (url : String) (http : String → HttpOutcome) : Option String × Option String :=
  match findDId url.toList with
  | none => (none, some "Could not extract doc ID")
  | some docId =>
    let export_url :=
      if containsSub ("spreadsheets".toList) url.toList then
        "https://docs.google.com/spreadsheets/d/" ++ String.mk docId ++ "/export?format=csv"
      else
        "https://docs.google.com/document/d/" ++ String.mk docId ++ "/export?format=txt"
    gdoc_response_map (http export_url)

/-- Embedding of fetch_notion (lines 424-437).  The CDP client acquisition is
the flag clientAvailable; the client fetch, which can raise, is the oracle
value cdp_fetch (an exception message or the (html, codeBlockTexts) pair);
the content normalizer html_to_markdown is abstracted by the total function
toMarkdown.  Every exception is converted to a typed (none, error) pair. -/
def fetch_notion (clientAvailable : Bool)
    (cdp_fetch : Except String (String × List String))
    (toMarkdown : String → List String → String) : Option String × Option String :=
  if !clientAvailable then (none, some "CDP browser not available")
  else
    match cdp_fetch with
    | .error e => (none, some ("CDP error: " ++ e))
    | .ok (html, cbs) =>
      if html.length < 500 then (none, some "Page did not load")
      else
        let text := toMarkdown html cbs
        if text.length < 200 then (none, some "No meaningful content found")
        else (some text, none)

/-- The two domains routed to the CDP browser strategy. -/
def CDP_DOMAINS : List String := ["notion.so", "notion.site"]

/-- Embedding of fetch_resource (lines 464-470): dispatch on the URL shape —
CDP strategy for Notion domains, direct export retrieval when the URL
contains "docs.google.com", otherwise a typed unsupported-domain failure. -/
def fetch_resource (url domain : String) (clientAvailable : Bool)
    (cdp_fetch : Except String (String × List String))
    (toMarkdown : String → List String → String)
    (http : String → HttpOutcome) : Option String × Option String :=
  if CDP_DOMAINS.contains domain then fetch_notion clientAvailable cdp_fetch toMarkdown
  else if containsSub ("docs.google.com".toList) url.toList then fetch_gdoc url http
  else (none, some ("Unsupported domain: " ++ domain))

/-- Observable state of the main sync loop of main (lines 750-807): the
outcome counters, the keys the loop body reached, the URLs handed to
fetch_resource, and the (url, body) pairs written to the capture store. -/
structure SyncState where
  extracted : Nat
  failed : Nat
  skipped_cdp : Nat
  visited : List UrlKey
  attempts : List String
  writes : List (String × String)
deriving DecidableEq, Repr

/-- The initial loop state. -/
def initSyncState : SyncState := ⟨0, 0, 0, [], [], []⟩

/-- One iteration of the main sync loop (lines 756-807): skip Notion items
when the CDP browser is unavailable (counted as skipped, no fetch); in
dry-run mode only preview; otherwise call the fetch strategy — abstracted
by fetchFn, which returns the (content, error) pair — and count a truthy
error as failed, else record the write and count it as extracted. -/
def process_item (cdp_available dry_run : Bool)
    (fetchFn : String → String → Option String × Option String)
    (st : SyncState) (item : UrlKey × UrlInfo) : SyncState :=
  let url := item.2.url
  let rtype := item.1.1
  let st := { st with visited := st.visited ++ [item.1] }
  if rtype = "notion" && !cdp_available then
    { st with skipped_cdp := st.skipped_cdp + 1 }
  else if dry_run then st
  else
    let r := fetchFn url (get_domain url)
    let st := { st with attempts := st.attempts ++ [url] }
    if truthy r.2 then { st with failed := st.failed + 1 }
    else
      { st with
          extracted := st.extracted + 1
          writes := st.writes ++ [(url, r.1.getD "")] }

/-- The whole main sync loop over a list of items. -/
def run_sync_loop (cdp_available dry_run : Bool)
    (fetchFn : String → String → Option String × Option String)
    (items : List (UrlKey × UrlInfo)) : SyncState :=
  items.foldl (process_item cdp_available dry_run fetchFn) initSyncState

/-- Insertion into a list sorted by the url field. -/
def insertByUrl (x : UrlKey × UrlInfo) : List (UrlKey × UrlInfo) → List (UrlKey × UrlInfo)
  | [] => [x]
  | y :: ys => if x.2.url ≤ y.2.url then x :: y :: ys else y :: insertByUrl x ys

/-- Model of sorted(uncovered.items(), key=lambda x: x[1]["url"]) (line 754):
the uncovered items in ascending order of URL string. -/
def sort_items (items : List (UrlKey × UrlInfo)) : List (UrlKey × UrlInfo) :=
  items.foldr insertByUrl []

/-- A Notion asset row returned by get_notion_asset_urls for the re-scrape
mode. -/
structure NotionAsset where
  id : String
  name : String
  published_url : String
deriving DecidableEq, Repr

/-- Observable state of one re-scrape run: counters, fetch attempts, capture
writes and database updates; exit is the code passed to sys.exit when the
run aborts. -/
structure RescrapeRun where
  success : Nat
  failed : Nat
  attempts : List String
  writes : List (String × String)
  db_updates : List (String × String)
  exitCode : Option Nat
deriving DecidableEq, Repr

/-- The initial re-scrape state. -/
def initRescrapeRun : RescrapeRun := ⟨0, 0, [], [], [], none⟩

/-- One iteration of the re-scrape loop (lines 575-626): skip assets without
a published URL; fetch through the CDP strategy (fetchFn gives its
(content, error) pair); on error count failed; else write the file and
attempt the database update — dbUpdate gives its outcome, an exception
counting as failed, success as updated. -/
def rescrape_item (fetchFn : String → Option String × Option String)
    (dbUpdate : String → String → Except String Nat)
    (st : RescrapeRun) (asset : NotionAsset) : RescrapeRun :=
  let url := asset.published_url
  if url = "" then st
  else
    let st := { st with attempts := st.attempts ++ [url] }
    let r := fetchFn url
    if truthy r.2 then { st with failed := st.failed + 1 }
    else
      let content := r.1.getD ""
      let st := { st with writes := st.writes ++ [(url, content)] }
      match dbUpdate asset.id content with
      | .ok _ =>
        { st with
            success := st.success + 1
            db_updates := st.db_updates ++ [(asset.id, content)] }
      | .error _ => { st with failed := st.failed + 1 }

/-- Embedding of rescrape_notion (lines 534-630): abort with exit code 1
when markdownify is missing; return at once when the asset list is empty;
abort with exit code 1 — before any fetch — when the CDP browser check
fails; preview only in dry-run mode; otherwise run the per-asset loop. -/
def rescrape_notion (markdownify_available : Bool) (assets : List NotionAsset)
    (cdp_available dry_run : Bool)
    (fetchFn : String → Option String × Option String)
    (dbUpdate : String → String → Except String Nat) : RescrapeRun :=
  if !markdownify_available then { initRescrapeRun with exitCode := some 1 }
  else if assets.isEmpty then initRescrapeRun
  else if !cdp_available then { initRescrapeRun with exitCode := some 1 }
  else if dry_run then initRescrapeRun
  else assets.foldl (rescrape_item fetchFn dbUpdate) initRescrapeRun

/-- Metadata fields of one capture-store .json file that get_scraped_keys
reads. -/
structure FileMeta where
  url : String
  content_length : Nat
deriving DecidableEq, Repr

/-- The per-key record get_scraped_keys builds. -/
structure ScrapedInfo where
  url : String
  file : String
  content_length : Nat
deriving DecidableEq, Repr

/-- Python dict assignment on an association list: overwrite in place when
the key exists, else append. -/
def dict_set (ks : List (UrlKey × ScrapedInfo)) (k : UrlKey) (v : ScrapedInfo) :
    List (UrlKey × ScrapedInfo) :=
  if ks.any (fun kv => decide (kv.1 = k)) then
    ks.map (fun kv => if kv.1 = k then (k, v) else kv)
  else ks ++ [(k, v)]

/-- Model of pathlib Path.stem: the file name with its last extension
removed. -/
def path_stem (n : String) : String :=
  let r := n.toList.reverse
  if r.contains '.' then String.mk ((r.dropWhile (fun c => c ≠ '.')).tail.reverse)
  else n

/-- One file of the capture-store scan of get_scraped_keys: skip
manifest.json, skip a file whose read or parse raised, and key the rest by
normalize_url of the recorded url. -/
def scraped_step (acc : List (UrlKey × ScrapedInfo)) (f : String × Except Unit FileMeta) :
    List (UrlKey × ScrapedInfo) :=
  if f.1 = "manifest.json" then acc
  else
    match f.2 with
    | .error _ => acc
    | .ok meta =>
      dict_set acc (normalize_url meta.url) ⟨meta.url, path_stem f.1, meta.content_length⟩

/-- Embedding of get_scraped_keys (lines 511-528): fold over the .json files
of the capture store — each given as its name together with either its
parsed metadata or an exception (unreadable file, invalid JSON). -/
def get_scraped_keys (files : List (String × Except Unit FileMeta)) :
    List (UrlKey × ScrapedInfo) :=
  files.foldl scraped_step []

/-- Python-style whitespace test, the character class str.strip removes. -/
def isPySpace (c : Char) : Bool :=
  c = ' ' || c = '\t' || c = '\n' || c = '\r' || c = '\x0b' || c = '\x0c'

/-- Model of str.strip(): drop leading and trailing whitespace. -/
def pyStrip (l : List Char) : List Char :=
  ((l.dropWhile isPySpace).reverse.dropWhile isPySpace).reverse

/-- Model of text.split with separator a newline. -/
def splitNl : List Char → List (List Char)
  | [] => [[]]
  | c :: rest =>
    if c = '\n' then [] :: splitNl rest
    else
      match splitNl rest with
      | r :: rs => (c :: r) :: rs
      | [] => [[c]]

/-- The language labels stripped from the first line of a Notion code block
(preprocess_notion_html lines 328-333). -/
def lang_labels : List String :=
  ["javascript", "python", "plain text", "text", "html", "css",
   "json", "typescript", "bash", "shell", "xml", "yaml", "markdown",
   "sql", "java", "c", "c++", "ruby", "go", "rust", "swift", "kotlin",
   "php", "r", "scala", "dart", "lua", "perl", "powershell"]

/-- The label-stripping step applied to the chosen text of one code block
(lines 350-354): split into lines, drop the first line when it is a
recognized language label (trimmed, lowercased), rejoin and strip. -/
def strip_code_text (text : String) : String :=
  let lines := splitNl text.toList
  let lines :=
    match lines with
    | l0 :: restL =>
      if lang_labels.contains (String.mk ((pyStrip l0).map Char.toLower)) then restL
      else l0 :: restL
    | [] => []
  String.mk (pyStrip (List.intercalate ['\n'] lines))

/-- The text placed into the generic pre/code replacement for the i-th
Notion code block (lines 342-354): prefer the i-th out-of-band text, fall
back to the static text, then strip a leading language label. -/
def code_block_replacement (code_block_texts : List String) (i : Nat)
    (staticText : String) : String :=
  strip_code_text ((code_block_texts[i]?).getD staticText)

/-- A node of the rendered Notion document, as BeautifulSoup exposes it to
preprocess_notion_html: a div whose class contains notion-code-block (with
the text its static markup recovers), a div whose class contains
notion-callout-block (with its separator-joined text), or any other
markup. -/
inductive HtmlNode where
  | codeBlock (staticText : String)
  | callout (text : String)
  | other (markup : String)
deriving DecidableEq, Repr

/-- A node after the rewrite: a generic pre/code block, a generic
blockquote, or untouched markup. -/
inductive OutNode where
  | preCode (text : String)
  | blockquote (text : String)
  | other (markup : String)
deriving DecidableEq, Repr

/-- The document rewrite of preprocess_notion_html (lines 336-371) at node
level: the i-th code-block element in document order (the find_all order)
is replaced by a pre/code block holding code_block_replacement for index i,
and each callout element by a blockquote holding its stripped text. -/
def preprocess_notion_html (code_block_texts : List String) :
    Nat → List HtmlNode → List OutNode
  | _, [] => []
  | i, .codeBlock s :: rest =>
    .preCode (code_block_replacement code_block_texts i s) ::
      preprocess_notion_html code_block_texts (i + 1) rest
  | i, .callout t :: rest =>
    .blockquote (String.mk (pyStrip t.toList)) ::
      preprocess_notion_html code_block_texts i rest
  | i, .other m :: rest =>
    .other m :: preprocess_notion_html code_block_texts i rest

/-- The static texts of the code-block elements of a document, in document
order. -/
def codeBlockTextsOf (doc : List HtmlNode) : List String :=
  doc.filterMap (fun n => match n with | .codeBlock s => some s | _ => none)

/-- The texts of the pre/code blocks of a rewritten document, in document
order. -/
def preCodeTextsOf (out : List OutNode) : List String :=
  out.filterMap (fun n => match n with | .preCode s => some s | _ => none)

/-- Indexed map starting at a given index. -/
def mapIdxFrom (f : Nat → α → β) : Nat → List α → List β
  | _, [] => []
  | k, a :: as => f k a :: mapIdxFrom f (k + 1) as

/-- Count of newlines at the head of the pending run, then the collapse rule
of re.sub applied to each maximal newline run: runs of three or more
newlines become exactly two. -/
def emitNl (k : Nat) : List Char :=
  if 3 ≤ k then ['\n', '\n'] else List.replicate k '\n'

/-- Scan for the collapse: pending counts the newline run read so far; on a
non-newline character (or the end) the run is emitted, collapsed when it
has length three or more. -/
def collapseNlAux : Nat → List Char → List Char
  | k, [] => emitNl k
  | k, c :: rest =>
    if c = '\n' then collapseNlAux (k + 1) rest
    else emitNl k ++ c :: collapseNlAux 0 rest

/-- Model of re.sub of three-or-more newlines with two newlines
(html_to_markdown line 420): each maximal run of at least three newline
characters becomes exactly two. -/
def collapse_blank_lines (l : List Char) : List Char :=
  collapseNlAux 0 l

/-- The final cleanup of html_to_markdown (lines 420-421): collapse long
newline runs, then strip leading and trailing whitespace. -/
def final_cleanup (s : String) : String :=
  String.mk (pyStrip (collapse_blank_lines s.toList))

/-- A suffix a platform URL can gain without changing its document: it is
empty or starts with the query or fragment delimiter. -/
def QuerySuffix (s : List Char) : Prop :=
  ∀ c, s.head? = some c → c = '?' ∨ c = '#'

/-- The skip condition of the main sync loop for one item: a Notion item
while the CDP browser is unavailable. -/
def skipsCdp (cdp_available : Bool) (it : UrlKey × UrlInfo) : Bool :=
  decide (it.1.1 = "notion") && !cdp_available

/-- Whether the fetch strategy reports a (truthy) error for one item. -/
def fetchErr (fetchFn : String → String → Option String × Option String)
    (it : UrlKey × UrlInfo) : Bool :=
  truthy (fetchFn it.2.url (get_domain it.2.url)).2

/-- Third stage of the extraction cascade as the specification words it,
amended to whole-URL substring markers: the Drive pattern applied only when
the URL contains the Drive marker, else the fallback. -/
def normalize_spec_step3 (url : String) : String × String :=
  match (if containsSub ("drive.google.com".toList) url.toList
         then findDriveId url.toList else none) with
  | some d => ("gdrive", String.mk d)
  | none => ("other", url)

/-- Second stage of the specification cascade: the /d/ pattern applied only
when the URL contains the Google marker, gsheet when "spreadsheets" occurs
in the URL, else gdoc. -/
def normalize_spec_step2 (url : String) : String × String :=
  match (if containsSub ("google.com".toList) url.toList
         then findDId url.toList else none) with
  | some d =>
    ((if containsSub ("spreadsheets".toList) url.toList then "gsheet" else "gdoc"),
      String.mk d)
  | none => normalize_spec_step3 url

/-- The extraction cascade in the order and guard structure the specification
describes (amended to whole-URL substring markers): the Notion pattern
applied only when the URL contains the Notion marker; else the second and
third stages; else the fallback key. -/
def normalize_spec (url : String) : String × String :=
  match (if containsSub ("notion".toList) url.toList
         then findHex32 url.toList else none) with
  | some h => ("notion", String.mk h)
  | none => normalize_spec_step2 url

theorem querySuffix_not_word {s : List Char} (hs : QuerySuffix s) :
    ∀ c t, s = c :: t → isWordChar c = false := by
  intro c t h
  have := hs c (by simp [h])
  rcases this with h1 | h1 <;> subst h1 <;> decide

theorem querySuffix_not_hex {s : List Char} (hs : QuerySuffix s) :
    ∀ c t, s = c :: t → isHexDigit c = false := by
  intro c t h
  have := hs c (by simp [h])
  rcases this with h1 | h1 <;> subst h1 <;> decide

theorem querySuffix_not_id {s : List Char} (hs : QuerySuffix s) :
    ∀ c t, s = c :: t → isIdChar c = false := by
  intro c t h
  have := hs c (by simp [h])
  rcases this with h1 | h1 <;> subst h1 <;> decide

theorem matchChars_eq_some_iff (p : List Char) :
    ∀ l r, matchChars p l = some r ↔ l = p ++ r := by
  induction p with
  | nil =>
    intro l r
    simp [matchChars]
  | cons x ps ih =>
    intro l r
    cases l with
    | nil => simp [matchChars]
    | cons y ls =>
      by_cases hxy : x = y
      · subst hxy
        simp [matchChars, ih]
      · simp [matchChars, hxy, Ne.symm hxy]

theorem matchChars_append_none {p l s : List Char}
    (hp : ∀ c ∈ p, ¬(c = '?' ∨ c = '#')) (hs : QuerySuffix s)
    (h : matchChars p l = none) : matchChars p (l ++ s) = none := by
  induction p generalizing l with
  | nil => simp [matchChars] at h
  | cons x ps ih =>
    cases l with
    | nil =>
      cases hh : s with
      | nil => simp [matchChars]
      | cons c t =>
        have hns := hs c (by simp [hh])
        have hx : ¬(x = '?' ∨ x = '#') := hp x (by simp)
        have hxc : x ≠ c := by
          rcases hns with h1 | h1 <;> subst h1 <;>
            simpa using fun h2 => hx (by simp [h2])
        simp [hh, matchChars, hxc]
    | cons y ls =>
      by_cases hxy : x = y
      · subst hxy
        simp only [matchChars, if_pos rfl] at h
        have := ih (fun c hc => hp c (by simp [hc])) h
        simpa [matchChars] using this
      · simp [matchChars, hxy]

theorem containsSub_iff (n : List Char) :
    ∀ l, containsSub n l = true ↔ ∃ a b, l = a ++ n ++ b := by
  intro l
  induction l with
  | nil =>
    simp [containsSub]
  | cons c rest ih =>
    simp only [containsSub, Bool.or_eq_true, Option.isSome_iff_exists, ih]
    constructor
    · rintro (⟨r, hr⟩ | ⟨a, b, hab⟩)
      · exact ⟨[], r, by simpa using (matchChars_eq_some_iff n (c :: rest) r).mp hr⟩
      · exact ⟨c :: a, b, by simp [hab]⟩
    · rintro ⟨a, b, hab⟩
      cases a with
      | nil =>
        left
        exact ⟨b, (matchChars_eq_some_iff n (c :: rest) b).mpr (by simpa using hab)⟩
      | cons a0 as =>
        right
        refine ⟨as, b, ?_⟩
        have : c = a0 ∧ rest = as ++ n ++ b := by
          simpa using hab
        simp [this.2]

theorem containsSub_of_append_sub {p m l : List Char}
    (h : containsSub (p ++ m) l = true) : containsSub m l = true := by
  rw [containsSub_iff] at h ⊢
  obtain ⟨a, b, hab⟩ := h
  exact ⟨a ++ p, b, by simp [hab]⟩

theorem takeIdChars_append {r s : List Char} (hs : QuerySuffix s) :
    takeIdChars (r ++ s) = takeIdChars r := by
  induction r with
  | nil =>
    cases hh : s with
    | nil => simp [hh, takeIdChars]
    | cons c t =>
      have := querySuffix_not_id hs c t hh
      simp [hh, takeIdChars, this]
  | cons c r' ih =>
    by_cases hc : isIdChar c = true
    · simp [takeIdChars, hc, ih]
    · simp only [Bool.not_eq_true] at hc
      simp [takeIdChars, hc]


theorem hex32Cond_iff {l : List Char} :
    hex32Cond l = true ↔
      32 ≤ l.length ∧ (l.take 32).all isHexDigit = true ∧
        atWordBoundary (l.drop 32) = true := by
  simp [hex32Cond, Bool.and_eq_true, and_assoc]

theorem hex32Cond_append_true {l s : List Char} (hs : QuerySuffix s)
    (h : hex32Cond l = true) : hex32Cond (l ++ s) = true := by
  rw [hex32Cond_iff] at h ⊢
  obtain ⟨h32, hall, hbd⟩ := h
  refine ⟨by rw [List.length_append]; omega, ?_, ?_⟩
  · rw [List.take_append_of_le_length h32]
    exact hall
  · rw [List.drop_append_of_le_length h32]
    cases hd : l.drop 32 with
    | nil =>
      cases hh : s with
      | nil => simp [atWordBoundary]
      | cons c t => simp [atWordBoundary, querySuffix_not_word hs c t hh]
    | cons d ds =>
      rw [hd] at hbd
      simpa [atWordBoundary] using hbd

theorem hex32Cond_append_false {l s : List Char} (hs : QuerySuffix s)
    (h : hex32Cond l = false) : hex32Cond (l ++ s) = false := by
  by_contra hcontra
  have htrue : hex32Cond (l ++ s) = true := by
    cases hx : hex32Cond (l ++ s) with
    | false => exact absurd hx hcontra
    | true => rfl
  rw [hex32Cond_iff] at htrue
  obtain ⟨h32, hall, hbd⟩ := htrue
  have hfalse : hex32Cond l = true := by
    rw [hex32Cond_iff]
    by_cases hl : 32 ≤ l.length
    · refine ⟨hl, ?_, ?_⟩
      · rw [List.take_append_of_le_length hl] at hall
        exact hall
      · rw [List.drop_append_of_le_length hl] at hbd
        cases hd : l.drop 32 with
        | nil => simp [atWordBoundary]
        | cons d ds =>
          rw [hd] at hbd
          simpa [atWordBoundary] using hbd
    · exfalso
      have hlt : l.length < 32 := by omega
      cases hh : s with
      | nil =>
        rw [hh] at h32
        simp at h32
        omega
      | cons c t =>
        have hc : isHexDigit c = false := querySuffix_not_hex hs c t hh
        rw [List.take_append_eq_append_take, List.take_of_length_le (by omega)] at hall
        rw [List.all_append] at hall
        have : (s.take (32 - l.length)).all isHexDigit = true :=
          (Bool.and_eq_true _ _).mp hall |>.2
        rw [hh] at this
        cases hk : 32 - l.length with
        | zero => omega
        | succ k =>
          rw [hk] at this
          simp only [List.take_succ_cons, List.all_cons, Bool.and_eq_true] at this
          rw [hc] at this
          exact Bool.noConfusion this.1
  rw [h] at hfalse
  exact Bool.noConfusion hfalse

theorem hex32At_append_some {l s r : List Char} (hs : QuerySuffix s)
    (h : hex32At l = some r) : hex32At (l ++ s) = some r := by
  unfold hex32At at h ⊢
  cases hc : hex32Cond l with
  | false =>
    rw [hc] at h
    simp at h
  | true =>
    rw [hc] at h
    simp only [if_pos rfl] at h
    rw [hex32Cond_append_true hs hc]
    simp only [if_pos rfl]
    rw [List.take_append_of_le_length (hex32Cond_iff.mp hc).1]
    exact h

theorem hex32At_append_none {l s : List Char} (hs : QuerySuffix s)
    (h : hex32At l = none) : hex32At (l ++ s) = none := by
  unfold hex32At at h ⊢
  cases hc : hex32Cond l with
  | true =>
    rw [hc] at h
    simp at h
  | false =>
    rw [hex32Cond_append_false hs hc]
    simp

theorem patIdAt_append_some {p l s r : List Char} (hs : QuerySuffix s)
    (h : patIdAt p l = some r) : patIdAt p (l ++ s) = some r := by
  unfold patIdAt at h ⊢
  cases hm : matchChars p l with
  | none => simp [hm] at h
  | some rest =>
    simp only [hm, Option.some_bind] at h
    cases rest with
    | nil => simp [idCapture] at h
    | cons c r2 =>
      by_cases hc : isIdChar c = true
      · simp only [idCapture, if_pos hc] at h
        have hl : l = p ++ (c :: r2) := (matchChars_eq_some_iff p l (c :: r2)).mp hm
        have hm' : matchChars p (l ++ s) = some (c :: (r2 ++ s)) := by
          rw [matchChars_eq_some_iff]
          simp [hl]
        simp only [hm', Option.some_bind, idCapture, if_pos hc, takeIdChars_append hs]
        exact h
      · simp [idCapture, hc] at h

theorem patIdAt_append_none {p l s : List Char}
    (hp : ∀ c ∈ p, ¬(c = '?' ∨ c = '#')) (hs : QuerySuffix s)
    (h : patIdAt p l = none) : patIdAt p (l ++ s) = none := by
  unfold patIdAt at h ⊢
  cases hm : matchChars p l with
  | none =>
    simp [matchChars_append_none hp hs hm]
  | some rest =>
    simp only [hm, Option.some_bind] at h
    cases rest with
    | nil =>
      have hl : l = p ++ [] := (matchChars_eq_some_iff p l []).mp hm
      have hm' : matchChars p (l ++ s) = some s := by
        rw [matchChars_eq_some_iff]
        simp [hl]
      simp only [hm', Option.some_bind]
      cases hh : s with
      | nil => simp [idCapture]
      | cons c t =>
        have hc : isIdChar c = false := querySuffix_not_id hs c t hh
        simp [idCapture, hc]
    | cons c r2 =>
      by_cases hc : isIdChar c = true
      · simp [idCapture, hc] at h
      · have hl : l = p ++ (c :: r2) := (matchChars_eq_some_iff p l (c :: r2)).mp hm
        have hm' : matchChars p (l ++ s) = some (c :: (r2 ++ s)) := by
          rw [matchChars_eq_some_iff]
          simp [hl]
        simp only [hm', Option.some_bind]
        simp only [Bool.not_eq_true] at hc
        simp [idCapture, hc]

theorem driveIdAt_append_some {l s r : List Char} (hs : QuerySuffix s)
    (h : driveIdAt l = some r) : driveIdAt (l ++ s) = some r := by
  unfold driveIdAt at h ⊢
  cases hf : patIdAt ("/folders/".toList) l with
  | some r' =>
    rw [hf] at h
    rw [patIdAt_append_some hs hf]
    exact h
  | none =>
    rw [hf] at h
    rw [patIdAt_append_none (by decide) hs hf]
    exact patIdAt_append_some hs h

theorem driveIdAt_append_none {l s : List Char} (hs : QuerySuffix s)
    (h : driveIdAt l = none) : driveIdAt (l ++ s) = none := by
  unfold driveIdAt at h ⊢
  cases hf : patIdAt ("/folders/".toList) l with
  | some r' => rw [hf] at h; cases h
  | none =>
    rw [hf] at h
    rw [patIdAt_append_none (by decide) hs hf]
    exact patIdAt_append_none (by decide) hs h

theorem searchAt_append_some {f : List Char → Option (List Char)} {s : List Char}
    (Hsome : ∀ l r, f l = some r → f (l ++ s) = some r)
    (Hnone : ∀ l, f l = none → f (l ++ s) = none) :
    ∀ {l r}, searchAt f l = some r → searchAt f (l ++ s) = some r := by
  intro l
  induction l with
  | nil =>
    intro r h
    have hf : f s = some r := by
      have := Hsome [] r h
      simpa using this
    cases s with
    | nil => simpa [searchAt] using hf
    | cons c t => simp [searchAt, hf]
  | cons c rest ih =>
    intro r h
    rw [List.cons_append]
    cases hf : f (c :: rest) with
    | some r' =>
      simp only [searchAt, hf] at h
      have h2 := Hsome (c :: rest) r' hf
      rw [List.cons_append] at h2
      unfold searchAt
      simp only [h2]
      exact h
    | none =>
      simp only [searchAt, hf] at h
      have hn := Hnone (c :: rest) hf
      rw [List.cons_append] at hn
      unfold searchAt
      simp only [hn]
      exact ih h

theorem searchAt_append_none {f : List Char → Option (List Char)} {s : List Char}
    (Hnone : ∀ l, f l = none → f (l ++ s) = none)
    (hs : searchAt f s = none) :
    ∀ {l}, searchAt f l = none → searchAt f (l ++ s) = none := by
  intro l
  induction l with
  | nil =>
    intro _
    simpa using hs
  | cons c rest ih =>
    intro h
    rw [List.cons_append]
    cases hf : f (c :: rest) with
    | some r' => simp [searchAt, hf] at h
    | none =>
      simp only [searchAt, hf] at h
      have hn := Hnone (c :: rest) hf
      rw [List.cons_append] at hn
      unfold searchAt
      simp only [hn]
      exact ih h

theorem findHex32_append_some {l s r : List Char} (hs : QuerySuffix s)
    (h : findHex32 l = some r) : findHex32 (l ++ s) = some r :=
  searchAt_append_some (fun _ _ hx => hex32At_append_some hs hx)
    (fun _ hx => hex32At_append_none hs hx) h

theorem findHex32_append_none {l s : List Char} (hs : QuerySuffix s)
    (hsn : findHex32 s = none) (h : findHex32 l = none) : findHex32 (l ++ s) = none :=
  searchAt_append_none (fun _ hx => hex32At_append_none hs hx) hsn h

theorem findDId_append_some {l s r : List Char} (hs : QuerySuffix s)
    (h : findDId l = some r) : findDId (l ++ s) = some r :=
  searchAt_append_some (fun _ _ hx => patIdAt_append_some hs hx)
    (fun _ hx => patIdAt_append_none (by decide) hs hx) h

theorem findDId_append_none {l s : List Char} (hs : QuerySuffix s)
    (hsn : findDId s = none) (h : findDId l = none) : findDId (l ++ s) = none :=
  searchAt_append_none (fun _ hx => patIdAt_append_none (by decide) hs hx) hsn h

theorem findDriveId_append_some {l s r : List Char} (hs : QuerySuffix s)
    (h : findDriveId l = some r) : findDriveId (l ++ s) = some r :=
  searchAt_append_some (fun _ _ hx => driveIdAt_append_some hs hx)
    (fun _ hx => driveIdAt_append_none hs hx) h

theorem findDriveId_append_none {l s : List Char} (hs : QuerySuffix s)
    (hsn : findDriveId s = none) (h : findDriveId l = none) : findDriveId (l ++ s) = none :=
  searchAt_append_none (fun _ hx => driveIdAt_append_none hs hx) hsn h

theorem containsSub_append_of {n l s : List Char} (h : containsSub n l = true) :
    containsSub n (l ++ s) = true := by
  rw [containsSub_iff] at h ⊢
  obtain ⟨a, b, hab⟩ := h
  exact ⟨a, b ++ s, by simp [hab]⟩

theorem toList_append_eq (u s : String) : (u ++ s).toList = u.toList ++ s.toList := by
  simp [String.toList, String.data_append]

theorem normalize_step3_stable {u s : String} (hqs : QuerySuffix s.toList)
    (hm4 : containsSub ("drive.google.com".toList) (u ++ s).toList
         = containsSub ("drive.google.com".toList) u.toList)
    (hother : (normalize_step3 u).1 ≠ "other") :
    normalize_step3 (u ++ s) = normalize_step3 u := by
  cases hdr : containsSub ("drive.google.com".toList) u.toList with
  | false =>
    have h1 : normalize_step3 u = ("other", u) := by
      unfold normalize_step3
      rw [hdr]
      simp
    rw [h1] at hother
    simp at hother
  | true =>
    cases hfd : findDriveId u.toList with
    | none =>
      have h1 : normalize_step3 u = ("other", u) := by
        unfold normalize_step3
        rw [hdr, hfd]
        simp
      rw [h1] at hother
      simp at hother
    | some d =>
      have hdr' : containsSub ("drive.google.com".toList) (u ++ s).toList = true := by
        rw [hm4, hdr]
      have hfd' : findDriveId (u ++ s).toList = some d := by
        rw [toList_append_eq]
        exact findDriveId_append_some hqs hfd
      have h1 : normalize_step3 u = ("gdrive", String.mk d) := by
        unfold normalize_step3
        rw [hdr, hfd]
        simp
      have h2 : normalize_step3 (u ++ s) = ("gdrive", String.mk d) := by
        unfold normalize_step3
        rw [hdr', hfd']
        simp
      rw [h1, h2]

theorem normalize_step2_stable {u s : String} (hqs : QuerySuffix s.toList)
    (hs2 : findDId s.toList = none)
    (hm2 : containsSub ("google.com".toList) (u ++ s).toList
         = containsSub ("google.com".toList) u.toList)
    (hm3 : containsSub ("spreadsheets".toList) (u ++ s).toList
         = containsSub ("spreadsheets".toList) u.toList)
    (hm4 : containsSub ("drive.google.com".toList) (u ++ s).toList
         = containsSub ("drive.google.com".toList) u.toList)
    (hother : (normalize_step2 u).1 ≠ "other") :
    normalize_step2 (u ++ s) = normalize_step2 u := by
  cases hd : findDId u.toList with
  | some d =>
    cases hg : containsSub ("google.com".toList) u.toList with
    | true =>
      have hd' : findDId (u ++ s).toList = some d := by
        rw [toList_append_eq]
        exact findDId_append_some hqs hd
      have hg' : containsSub ("google.com".toList) (u ++ s).toList = true := by
        rw [hm2, hg]
      unfold normalize_step2
      rw [hd, hg, hd', hg', hm3]
    | false =>
      have hd' : findDId (u ++ s).toList = some d := by
        rw [toList_append_eq]
        exact findDId_append_some hqs hd
      have hg' : containsSub ("google.com".toList) (u ++ s).toList = false := by
        rw [hm2, hg]
      have h1 : normalize_step2 u = normalize_step3 u := by
        unfold normalize_step2
        rw [hd, hg]
      have h2 : normalize_step2 (u ++ s) = normalize_step3 (u ++ s) := by
        unfold normalize_step2
        rw [hd', hg']
      rw [h1] at hother
      rw [h1, h2]
      exact normalize_step3_stable hqs hm4 hother
  | none =>
    have hd' : findDId (u ++ s).toList = none := by
      rw [toList_append_eq]
      exact findDId_append_none hqs hs2 hd
    have h1 : normalize_step2 u = normalize_step3 u := by
      unfold normalize_step2
      rw [hd]
    have h2 : normalize_step2 (u ++ s) = normalize_step3 (u ++ s) := by
      unfold normalize_step2
      rw [hd']
    rw [h1] at hother
    rw [h1, h2]
    exact normalize_step3_stable hqs hm4 hother

/-- C1 (counterexample).  The claim asserts that two URLs referencing the
same platform document that differ only by query string normalize to the
same key.  The two URLs below reference the same Google document (their /d/
document id is the identical MYDOC99, and the platform ignores unknown
query parameters), differ only by the query string ?from=spreadsheets, yet
normalize_url classifies one as gdoc and the other as gsheet, because
"spreadsheets" is searched in the whole URL, query string included. -/
theorem C1_counterexample :
    normalize_url "https://docs.google.com/document/d/MYDOC99" = ("gdoc", "MYDOC99") ∧
    normalize_url "https://docs.google.com/document/d/MYDOC99?from=spreadsheets"
      = ("gsheet", "MYDOC99") ∧
    normalize_url "https://docs.google.com/document/d/MYDOC99" ≠
      normalize_url "https://docs.google.com/document/d/MYDOC99?from=spreadsheets" := by
  refine ⟨by decide, by decide, by decide⟩

/-- C1 (amended).  Appending a query-string or fragment suffix to a URL does
not change its normalized key, provided the suffix starts with the query or
fragment delimiter, contains no 32-hex-digit run and no /d/ id pattern of
its own, does not change which of the four marker substrings ("notion",
"google.com", "spreadsheets", "drive.google.com") occur in the URL, and the
base URL normalizes to a platform key rather than the fallback
("other", url) key (the fallback key contains the URL itself, so any suffix
changes it). -/
theorem C1_normalize_stable_under_query_suffix (u s : String)
    (hqs : QuerySuffix s.toList)
    (hs1 : findHex32 s.toList = none)
    (hs2 : findDId s.toList = none)
    (hm1 : containsSub ("notion".toList) (u ++ s).toList
         = containsSub ("notion".toList) u.toList)
    (hm2 : containsSub ("google.com".toList) (u ++ s).toList
         = containsSub ("google.com".toList) u.toList)
    (hm3 : containsSub ("spreadsheets".toList) (u ++ s).toList
         = containsSub ("spreadsheets".toList) u.toList)
    (hm4 : containsSub ("drive.google.com".toList) (u ++ s).toList
         = containsSub ("drive.google.com".toList) u.toList)
    (hother : (normalize_url u).1 ≠ "other") :
    normalize_url (u ++ s) = normalize_url u := by
  cases hx : findHex32 u.toList with
  | some hid =>
    cases hn : containsSub ("notion".toList) u.toList with
    | true =>
      have hx' : findHex32 ((u ++ s).toList) = some hid := by
        rw [toList_append_eq]
        exact findHex32_append_some hqs hx
      have hn' : containsSub ("notion".toList) (u ++ s).toList = true := hm1.trans hn
      unfold normalize_url
      rw [hx, hn, hx', hn']
    | false =>
      have hx' : findHex32 ((u ++ s).toList) = some hid := by
        rw [toList_append_eq]
        exact findHex32_append_some hqs hx
      have hn' : containsSub ("notion".toList) (u ++ s).toList = false := hm1.trans hn
      have h1 : normalize_url u = normalize_step2 u := by
        unfold normalize_url
        rw [hx, hn]
      have h2 : normalize_url (u ++ s) = normalize_step2 (u ++ s) := by
        unfold normalize_url
        rw [hx', hn']
      rw [h1] at hother
      rw [h1, h2]
      exact normalize_step2_stable hqs hs2 hm2 hm3 hm4 hother
  | none =>
    have hx' : findHex32 ((u ++ s).toList) = none := by
      rw [toList_append_eq]
      exact findHex32_append_none hqs hs1 hx
    have h1 : normalize_url u = normalize_step2 u := by
      unfold normalize_url
      rw [hx]
    have h2 : normalize_url (u ++ s) = normalize_step2 (u ++ s) := by
      unfold normalize_url
      rw [hx']
    rw [h1] at hother
    rw [h1, h2]
    exact normalize_step2_stable hqs hs2 hm2 hm3 hm4 hother

/-- C1 (witness): the amended theorem applied to a concrete Notion page URL
and the concrete query suffix ?pvs=4. -/
theorem C1_witness :
    normalize_url ("https://www.notion.so/Page-0123456789abcdef0123456789abcdef" ++ "?pvs=4")
      = normalize_url "https://www.notion.so/Page-0123456789abcdef0123456789abcdef" :=
  C1_normalize_stable_under_query_suffix
    "https://www.notion.so/Page-0123456789abcdef0123456789abcdef" "?pvs=4"
    (by intro c hc; left; exact (by simpa using hc.symm))
    (by decide) (by decide) (by decide) (by decide) (by decide) (by decide) (by decide)

theorem normalize_step3_eq_spec (url : String) :
    normalize_step3 url = normalize_spec_step3 url := by
  unfold normalize_step3 normalize_spec_step3
  cases hdr : containsSub ("drive.google.com".toList) url.toList with
  | true => simp
  | false => simp

theorem normalize_step2_eq_spec (url : String) :
    normalize_step2 url = normalize_spec_step2 url := by
  unfold normalize_step2 normalize_spec_step2
  cases hg : containsSub ("google.com".toList) url.toList with
  | true =>
    cases hd : findDId url.toList with
    | some d => simp
    | none => exact normalize_step3_eq_spec url
  | false =>
    cases hd : findDId url.toList with
    | some d => exact normalize_step3_eq_spec url
    | none => exact normalize_step3_eq_spec url

/-- C4 (counterexample).  The claim asserts the platform-B (Google) /d/
pattern is applied only when the URL host contains the platform-B marker.
The URL below has no network location at all, so its host is empty (and the
empty host contains no marker), yet normalize_url extracts a gdoc key from
it because the marker "google.com" occurs in its query string and markers
are searched in the whole URL, not the host. -/
theorem C4_counterexample :
    get_domain "example.com/d/abc123?cache=google.com" = "" ∧
    containsSub ("google.com".toList) "".toList = false ∧
    containsSub ("notion".toList) "".toList = false ∧
    normalize_url "example.com/d/abc123?cache=google.com" = ("gdoc", "abc123") := by
  refine ⟨by decide, by decide, by decide, by decide⟩

/-- C4 (amended).  The extraction order of normalize_url is exactly the
cascade the claim describes once every occurrence of "host" is read as the
whole URL string and the spreadsheets path-segment test as a whole-URL
substring test: the Notion 32-hex pattern is used only when the URL
contains "notion", then the /d/ pattern only when the URL contains
"google.com" (gsheet when "spreadsheets" occurs in the URL, else gdoc),
then the Drive folders/d pattern only when the URL contains
"drive.google.com", and otherwise the fallback ("other", url) — in that
order. -/
theorem C4_extraction_order (url : String) : normalize_url url = normalize_spec url := by
  unfold normalize_url normalize_spec
  cases hn : containsSub ("notion".toList) url.toList with
  | true =>
    cases hx : findHex32 url.toList with
    | some h => simp
    | none => exact normalize_step2_eq_spec url
  | false =>
    cases hx : findHex32 url.toList with
    | some h => exact normalize_step2_eq_spec url
    | none => exact normalize_step2_eq_spec url

/-- C3 (counterexample).  The claim asserts that every URL whose host
matches no known platform marker gets the fallback key ("other", url).
The URL below has host example.com, which contains no platform marker, yet
normalize_url returns a Notion key for it: the 32-hex id pattern matches in
the path and the marker "notion" occurs in the query string, and markers
are searched in the whole URL, not the host. -/
theorem C3_counterexample :
    get_domain "https://example.com/0123456789abcdef0123456789abcdef?ref=notion"
      = "example.com" ∧
    containsSub ("notion".toList) "example.com".toList = false ∧
    containsSub ("google.com".toList) "example.com".toList = false ∧
    normalize_url "https://example.com/0123456789abcdef0123456789abcdef?ref=notion"
      = ("notion", "0123456789abcdef0123456789abcdef") ∧
    normalize_url "https://example.com/0123456789abcdef0123456789abcdef?ref=notion"
      ≠ ("other", "https://example.com/0123456789abcdef0123456789abcdef?ref=notion") := by
  refine ⟨by decide, by decide, by decide, by decide, by decide⟩

/-- C3 (amended).  normalize_url is a total function by construction (every
exceptional path of the source is represented, and none exists: the regex
searches and substring tests always return), and for every URL that
contains neither "notion" nor "google.com" anywhere in the URL string — the
amendment replaces the host of the claim by the whole URL — it returns the
fallback key ("other", url) with the original URL as identifier. -/
theorem C3_fallback_key (url : String)
    (hn : containsSub ("notion".toList) url.toList = false)
    (hg : containsSub ("google.com".toList) url.toList = false) :
    normalize_url url = ("other", url) := by
  have hdr : containsSub ("drive.google.com".toList) url.toList = false := by
    cases hx : containsSub ("drive.google.com".toList) url.toList with
    | false => rfl
    | true =>
      exfalso
      have hx' : containsSub ("drive.".toList ++ "google.com".toList) url.toList = true := by
        have he : ("drive.google.com".toList : List Char)
            = "drive.".toList ++ "google.com".toList := by decide
        rw [← he]
        exact hx
      have := containsSub_of_append_sub hx'
      rw [hg] at this
      exact Bool.noConfusion this
  have h1 : normalize_url url = normalize_step2 url := by
    cases hx : findHex32 url.toList with
    | some hid =>
      unfold normalize_url
      rw [hx, hn]
    | none =>
      unfold normalize_url
      rw [hx]
  have h2 : normalize_step2 url = normalize_step3 url := by
    cases hd : findDId url.toList with
    | some d =>
      unfold normalize_step2
      rw [hd, hg]
    | none =>
      unfold normalize_step2
      rw [hd]
  have h3 : normalize_step3 url = ("other", url) := by
    unfold normalize_step3
    rw [hdr]
    simp
  rw [h1, h2, h3]

/-- C3 (witness): the amended theorem applied to a concrete URL with no
platform marker. -/
theorem C3_witness :
    normalize_url "https://example.org/page" = ("other", "https://example.org/page") :=
  C3_fallback_key "https://example.org/page" (by decide) (by decide)

/-- C2 (confirmed).  The uncovered set of the orchestrator (lines 707-715)
is exactly set difference plus the unconditional gdrive exclusion: without
a domain filter, a key is uncovered iff it is referenced, not covered, and
not a gdrive key; gdrive keys never appear under any domain filter; and a
covered key that is not referenced never appears — the computation is a
pure filter, so such keys cause no error by construction. -/
theorem C2_uncovered_set (db_urls : List (UrlKey × UrlInfo)) (scraped_keys : List UrlKey)
    (k : UrlKey) :
    (k ∈ (compute_uncovered db_urls scraped_keys none).map Prod.fst ↔
      (k ∈ db_urls.map Prod.fst ∧ k ∉ scraped_keys ∧ k.1 ≠ "gdrive")) ∧
    (∀ dfilter : Option String, k.1 = "gdrive" →
      k ∉ (compute_uncovered db_urls scraped_keys dfilter).map Prod.fst) ∧
    (k ∈ scraped_keys → k ∉ db_urls.map Prod.fst →
      k ∉ (compute_uncovered db_urls scraped_keys none).map Prod.fst) := by
  refine ⟨?_, ?_, ?_⟩
  · unfold compute_uncovered
    simp only [List.mem_map, List.mem_filter, Bool.not_eq_true', decide_eq_false_iff_not,
      decide_eq_true_eq]
    constructor
    · rintro ⟨kv, ⟨⟨hdb, hns⟩, hng⟩, rfl⟩
      exact ⟨⟨kv, hdb, rfl⟩, hns, hng⟩
    · rintro ⟨⟨kv, hdb, rfl⟩, hns, hng⟩
      exact ⟨kv, ⟨⟨hdb, hns⟩, hng⟩, rfl⟩
  · intro dfilter hk
    unfold compute_uncovered
    cases dfilter with
    | none =>
      simp only [List.mem_map, List.mem_filter, decide_eq_true_eq]
      rintro ⟨kv, ⟨_, hng⟩, rfl⟩
      exact hng hk
    | some d =>
      simp only [List.mem_map, List.mem_filter, decide_eq_true_eq]
      rintro ⟨kv, ⟨_, hng⟩, rfl⟩
      exact hng hk
  · intro hks hndb
    unfold compute_uncovered
    simp only [List.mem_map, List.mem_filter, Bool.not_eq_true', decide_eq_false_iff_not]
    rintro ⟨kv, ⟨⟨hdb, hns⟩, _⟩, rfl⟩
    exact hns hks

/-- C2 (witness): the theorem applied at a concrete state where the capture
store covers a key the corpus no longer references — the stale key does not
appear in the uncovered set. -/
theorem C2_witness :
    ("notion", "stale") ∉
      (compute_uncovered [(("gdoc", "a"), ⟨"https://d", "p1", "pr", "t"⟩)]
        [("notion", "stale")] none).map Prod.fst :=
  (C2_uncovered_set [(("gdoc", "a"), ⟨"https://d", "p1", "pr", "t"⟩)]
    [("notion", "stale")] ("notion", "stale")).2.2 (by decide) (by decide)

theorem scraped_step_error (acc : List (UrlKey × ScrapedInfo)) (n : String) :
    scraped_step acc (n, Except.error ()) = acc := by
  unfold scraped_step
  split <;> rfl

/-- C10 (confirmed).  The covered-set scan is a pure fold that is total by
construction (reading and parsing are modelled as an Except value per file,
exactly the two operations the source wraps in its try block); a file whose
read or parse raised is silently skipped: it contributes no covered key and
the scan of every other file — before or after it — is unchanged. -/
theorem C10_scraped_keys_skip_bad_files (xs ys : List (String × Except Unit FileMeta))
    (n : String) :
    get_scraped_keys (xs ++ (n, Except.error ()) :: ys) = get_scraped_keys (xs ++ ys) := by
  unfold get_scraped_keys
  rw [List.foldl_append, List.foldl_append, List.foldl_cons, scraped_step_error]

theorem process_item_visited (cdp dry : Bool)
    (fetchFn : String → String → Option String × Option String)
    (st : SyncState) (it : UrlKey × UrlInfo) :
    (process_item cdp dry fetchFn st it).visited = st.visited ++ [it.1] := by
  unfold process_item
  by_cases h : (decide (it.1.1 = "notion") && !cdp) = true
  · simp [h]
  · simp only [Bool.not_eq_true] at h
    cases dry with
    | true => simp [h]
    | false =>
      by_cases he : truthy (fetchFn it.2.url (get_domain it.2.url)).2 = true
      · simp [h, he]
      · simp only [Bool.not_eq_true] at he
        simp [h, he]

theorem process_item_skipped (cdp dry : Bool)
    (fetchFn : String → String → Option String × Option String)
    (st : SyncState) (it : UrlKey × UrlInfo) :
    (process_item cdp dry fetchFn st it).skipped_cdp
      = st.skipped_cdp + (if skipsCdp cdp it then 1 else 0) := by
  unfold process_item skipsCdp
  by_cases h : (decide (it.1.1 = "notion") && !cdp) = true
  · simp [h]
  · simp only [Bool.not_eq_true] at h
    cases dry with
    | true => simp [h]
    | false =>
      by_cases he : truthy (fetchFn it.2.url (get_domain it.2.url)).2 = true
      · simp [h, he]
      · simp only [Bool.not_eq_true] at he
        simp [h, he]

theorem process_item_attempts (cdp dry : Bool)
    (fetchFn : String → String → Option String × Option String)
    (st : SyncState) (it : UrlKey × UrlInfo) :
    (process_item cdp dry fetchFn st it).attempts
      = st.attempts ++ (if skipsCdp cdp it || dry then [] else [it.2.url]) := by
  unfold process_item skipsCdp
  by_cases h : (decide (it.1.1 = "notion") && !cdp) = true
  · simp [h]
  · simp only [Bool.not_eq_true] at h
    cases dry with
    | true => simp [h]
    | false =>
      by_cases he : truthy (fetchFn it.2.url (get_domain it.2.url)).2 = true
      · simp [h, he]
      · simp only [Bool.not_eq_true] at he
        simp [h, he]

theorem process_item_extracted (cdp dry : Bool)
    (fetchFn : String → String → Option String × Option String)
    (st : SyncState) (it : UrlKey × UrlInfo) :
    (process_item cdp dry fetchFn st it).extracted
      = st.extracted
        + (if !skipsCdp cdp it && !dry && !fetchErr fetchFn it then 1 else 0) := by
  unfold process_item skipsCdp fetchErr
  by_cases h : (decide (it.1.1 = "notion") && !cdp) = true
  · simp [h]
  · simp only [Bool.not_eq_true] at h
    cases dry with
    | true => simp [h]
    | false =>
      by_cases he : truthy (fetchFn it.2.url (get_domain it.2.url)).2 = true
      · simp [h, he]
      · simp only [Bool.not_eq_true] at he
        simp [h, he]

theorem process_item_failed (cdp dry : Bool)
    (fetchFn : String → String → Option String × Option String)
    (st : SyncState) (it : UrlKey × UrlInfo) :
    (process_item cdp dry fetchFn st it).failed
      = st.failed
        + (if !skipsCdp cdp it && !dry && fetchErr fetchFn it then 1 else 0) := by
  unfold process_item skipsCdp fetchErr
  by_cases h : (decide (it.1.1 = "notion") && !cdp) = true
  · simp [h]
  · simp only [Bool.not_eq_true] at h
    cases dry with
    | true => simp [h]
    | false =>
      by_cases he : truthy (fetchFn it.2.url (get_domain it.2.url)).2 = true
      · simp [h, he]
      · simp only [Bool.not_eq_true] at he
        simp [h, he]

theorem sync_loop_visited (cdp dry : Bool)
    (fetchFn : String → String → Option String × Option String) :
    ∀ (items : List (UrlKey × UrlInfo)) (st0 : SyncState),
    (items.foldl (process_item cdp dry fetchFn) st0).visited
      = st0.visited ++ items.map Prod.fst := by
  intro items
  induction items with
  | nil => intro st0; simp
  | cons it rest ih =>
    intro st0
    rw [List.foldl_cons, ih, process_item_visited]
    simp

theorem sync_loop_skipped (cdp dry : Bool)
    (fetchFn : String → String → Option String × Option String) :
    ∀ (items : List (UrlKey × UrlInfo)) (st0 : SyncState),
    (items.foldl (process_item cdp dry fetchFn) st0).skipped_cdp
      = st0.skipped_cdp + (items.filter (skipsCdp cdp)).length := by
  intro items
  induction items with
  | nil => intro st0; simp
  | cons it rest ih =>
    intro st0
    rw [List.foldl_cons, ih, process_item_skipped, List.filter_cons]
    by_cases h : skipsCdp cdp it = true
    · simp [h]
      omega
    · simp only [Bool.not_eq_true] at h
      simp [h]

theorem sync_loop_attempts (cdp dry : Bool)
    (fetchFn : String → String → Option String × Option String) :
    ∀ (items : List (UrlKey × UrlInfo)) (st0 : SyncState),
    (items.foldl (process_item cdp dry fetchFn) st0).attempts
      = st0.attempts
        ++ (if dry then []
            else (items.filter (fun it => !skipsCdp cdp it)).map (fun it => it.2.url)) := by
  intro items
  induction items with
  | nil => intro st0; simp
  | cons it rest ih =>
    intro st0
    rw [List.foldl_cons, ih, process_item_attempts, List.filter_cons]
    by_cases h : skipsCdp cdp it = true
    · cases dry with
      | true => simp [h]
      | false => simp [h]
    · simp only [Bool.not_eq_true] at h
      cases dry with
      | true => simp [h]
      | false => simp [h]

theorem sync_loop_extracted (cdp dry : Bool)
    (fetchFn : String → String → Option String × Option String) :
    ∀ (items : List (UrlKey × UrlInfo)) (st0 : SyncState),
    (items.foldl (process_item cdp dry fetchFn) st0).extracted
      = st0.extracted
        + (if dry then 0
           else (items.filter
              (fun it => !skipsCdp cdp it && !fetchErr fetchFn it)).length) := by
  intro items
  induction items with
  | nil => intro st0; simp
  | cons it rest ih =>
    intro st0
    rw [List.foldl_cons, ih, process_item_extracted, List.filter_cons]
    by_cases h : skipsCdp cdp it = true
    · cases dry with
      | true => simp [h]
      | false => simp [h]
    · simp only [Bool.not_eq_true] at h
      cases dry with
      | true => simp [h]
      | false =>
        by_cases he : fetchErr fetchFn it = true
        · simp [h, he]
        · simp only [Bool.not_eq_true] at he
          simp [h, he]
          omega

theorem sync_loop_failed (cdp dry : Bool)
    (fetchFn : String → String → Option String × Option String) :
    ∀ (items : List (UrlKey × UrlInfo)) (st0 : SyncState),
    (items.foldl (process_item cdp dry fetchFn) st0).failed
      = st0.failed
        + (if dry then 0
           else (items.filter
              (fun it => !skipsCdp cdp it && fetchErr fetchFn it)).length) := by
  intro items
  induction items with
  | nil => intro st0; simp
  | cons it rest ih =>
    intro st0
    rw [List.foldl_cons, ih, process_item_failed, List.filter_cons]
    by_cases h : skipsCdp cdp it = true
    · cases dry with
      | true => simp [h]
      | false => simp [h]
    · simp only [Bool.not_eq_true] at h
      cases dry with
      | true => simp [h]
      | false =>
        by_cases he : fetchErr fetchFn it = true
        · simp [h, he]
          omega
        · simp only [Bool.not_eq_true] at he
          simp [h, he]

theorem three_way_count (cdp : Bool)
    (fetchFn : String → String → Option String × Option String)
    (items : List (UrlKey × UrlInfo)) :
    (items.filter (skipsCdp cdp)).length
      + (items.filter (fun it => !skipsCdp cdp it && fetchErr fetchFn it)).length
      + (items.filter (fun it => !skipsCdp cdp it && !fetchErr fetchFn it)).length
      = items.length := by
  induction items with
  | nil => simp
  | cons it rest ih =>
    simp only [List.filter_cons]
    by_cases h : skipsCdp cdp it = true
    · simp [h]
      omega
    · simp only [Bool.not_eq_true] at h
      by_cases he : fetchErr fetchFn it = true
      · simp [h, he]
        omega
      · simp only [Bool.not_eq_true] at he
        simp [h, he]
        omega

theorem fetch_notion_typed (avail : Bool) (cdpres : Except String (String × List String))
    (toMd : String → List String → String) :
    ((fetch_notion avail cdpres toMd).1 = none ∧
      (fetch_notion avail cdpres toMd).2.isSome = true) ∨
    ((fetch_notion avail cdpres toMd).2 = none ∧
      (fetch_notion avail cdpres toMd).1.isSome = true) := by
  unfold fetch_notion
  cases avail with
  | false => simp
  | true =>
    cases cdpres with
    | error e => simp
    | ok pr =>
      obtain ⟨html, cbs⟩ := pr
      by_cases h5 : html.length < 500
      · simp [h5]
      · by_cases h2 : (toMd html cbs).length < 200
        · simp [h5, h2]
        · simp [h5, h2]

theorem gdoc_response_map_typed (o : HttpOutcome) :
    ((gdoc_response_map o).1 = none ∧ (gdoc_response_map o).2.isSome = true) ∨
    ((gdoc_response_map o).2 = none ∧ (gdoc_response_map o).1.isSome = true) := by
  unfold gdoc_response_map
  cases o with
  | success body => simp
  | httpError code reason =>
    by_cases hc : code = 403
    · simp [hc]
    · simp [hc]
  | netError msg => simp

theorem fetch_gdoc_typed (url : String) (http : String → HttpOutcome) :
    ((fetch_gdoc url http).1 = none ∧ (fetch_gdoc url http).2.isSome = true) ∨
    ((fetch_gdoc url http).2 = none ∧ (fetch_gdoc url http).1.isSome = true) := by
  unfold fetch_gdoc
  cases hd : findDId url.toList with
  | none => simp
  | some d => exact gdoc_response_map_typed _

/-- C5 (confirmed).  One loop item can never abort the run: both fetch
strategies convert every outcome of their effects — the CDP fetch result or
exception, and the HTTP outcome — into a typed (content, error) pair, and
the main sync loop, run over the URL-sorted uncovered items with any
per-item outcomes, still visits every single item: its visited trace is
exactly the item list, the three outcome counters partition the items, and
the failure counter records exactly the non-skipped items whose fetch
reported an error. -/
theorem C5_one_failure_never_aborts (cdp : Bool)
    (fetchFn : String → String → Option String × Option String)
    (items : List (UrlKey × UrlInfo)) :
    (∀ (avail : Bool) (cdpres : Except String (String × List String))
        (toMd : String → List String → String),
      ((fetch_notion avail cdpres toMd).1 = none ∧
        (fetch_notion avail cdpres toMd).2.isSome = true) ∨
      ((fetch_notion avail cdpres toMd).2 = none ∧
        (fetch_notion avail cdpres toMd).1.isSome = true)) ∧
    (∀ (url : String) (http : String → HttpOutcome),
      ((fetch_gdoc url http).1 = none ∧ (fetch_gdoc url http).2.isSome = true) ∨
      ((fetch_gdoc url http).2 = none ∧ (fetch_gdoc url http).1.isSome = true)) ∧
    (run_sync_loop cdp false fetchFn (sort_items items)).visited
      = (sort_items items).map Prod.fst ∧
    (run_sync_loop cdp false fetchFn (sort_items items)).extracted
      + (run_sync_loop cdp false fetchFn (sort_items items)).failed
      + (run_sync_loop cdp false fetchFn (sort_items items)).skipped_cdp
      = (sort_items items).length ∧
    (run_sync_loop cdp false fetchFn (sort_items items)).failed
      = ((sort_items items).filter
          (fun it => !skipsCdp cdp it && fetchErr fetchFn it)).length := by
  refine ⟨fetch_notion_typed, fetch_gdoc_typed, ?_, ?_, ?_⟩
  · unfold run_sync_loop
    rw [sync_loop_visited]
    simp [initSyncState]
  · unfold run_sync_loop
    rw [sync_loop_extracted, sync_loop_failed, sync_loop_skipped]
    simp only [initSyncState, if_neg (by simp : ¬(false = true))]
    have := three_way_count cdp fetchFn (sort_items items)
    omega
  · unfold run_sync_loop
    rw [sync_loop_failed]
    simp [initSyncState]

/-- C7 (confirmed).  When the CDP browser is unavailable the re-scrape mode
aborts the whole run with exit code 1 before attempting a single fetch
(given markdownify present and a non-empty asset list, the two precondition
checks that come first), in dry-run and normal mode alike; the main sync
loop instead skips each browser-requiring item individually — a Notion item
is exactly a skipped item when the browser is down — counting it in the
skipped counter, never in the failed counter, while still visiting every
item and fetching every non-Notion item. -/
theorem C7_rescrape_fail_fast_vs_sync_skip (assets : List NotionAsset) (dry : Bool)
    (fetchFn1 : String → Option String × Option String)
    (dbU : String → String → Except String Nat)
    (fetchFn : String → String → Option String × Option String)
    (items : List (UrlKey × UrlInfo))
    (hne : assets ≠ []) :
    (rescrape_notion true assets false dry fetchFn1 dbU).exitCode = some 1 ∧
    (rescrape_notion true assets false dry fetchFn1 dbU).attempts = [] ∧
    (∀ it : UrlKey × UrlInfo, skipsCdp false it = decide (it.1.1 = "notion")) ∧
    (run_sync_loop false false fetchFn items).skipped_cdp
      = (items.filter (skipsCdp false)).length ∧
    (run_sync_loop false false fetchFn items).attempts
      = (items.filter (fun it => !skipsCdp false it)).map (fun it => it.2.url) ∧
    (run_sync_loop false false fetchFn items).visited = items.map Prod.fst ∧
    (run_sync_loop false false fetchFn items).failed
      = (items.filter (fun it => !skipsCdp false it && fetchErr fetchFn it)).length := by
  have hempty : assets.isEmpty = false := by
    cases assets with
    | nil => exact absurd rfl hne
    | cons a as => rfl
  refine ⟨?_, ?_, ?_, ?_, ?_, ?_, ?_⟩
  · unfold rescrape_notion
    rw [hempty]
    simp
  · unfold rescrape_notion
    rw [hempty]
    simp [initRescrapeRun]
  · intro it
    unfold skipsCdp
    simp
  · unfold run_sync_loop
    rw [sync_loop_skipped]
    simp [initSyncState]
  · unfold run_sync_loop
    rw [sync_loop_attempts]
    simp [initSyncState]
  · unfold run_sync_loop
    rw [sync_loop_visited]
    simp [initSyncState]
  · unfold run_sync_loop
    rw [sync_loop_failed]
    simp [initSyncState]

/-- C7 (witness): the theorem applied to a concrete run — one asset to
re-scrape, and a two-item uncovered list holding one Notion and one Google
item — with the browser unavailable. -/
theorem C7_witness :
    (rescrape_notion true [⟨"a1", "Guide", "https://www.notion.so/x"⟩] false false
        (fun _ => (none, some "CDP error: boom")) (fun _ _ => Except.ok 204)).exitCode
      = some 1 ∧
    (rescrape_notion true [⟨"a1", "Guide", "https://www.notion.so/x"⟩] false false
        (fun _ => (none, some "CDP error: boom")) (fun _ _ => Except.ok 204)).attempts
      = [] ∧
    (∀ it : UrlKey × UrlInfo, skipsCdp false it = decide (it.1.1 = "notion")) ∧
    (run_sync_loop false false (fun _ _ => (none, some "Error: boom"))
        [(("notion", "n1"), ⟨"https://www.notion.so/y", "p", "pr", "t"⟩),
         (("gdoc", "g1"), ⟨"https://docs.google.com/document/d/g1", "p", "pr", "t"⟩)]).skipped_cdp
      = ([(("notion", "n1"), (⟨"https://www.notion.so/y", "p", "pr", "t"⟩ : UrlInfo)),
          (("gdoc", "g1"), ⟨"https://docs.google.com/document/d/g1", "p", "pr", "t"⟩)].filter
            (skipsCdp false)).length ∧
    (run_sync_loop false false (fun _ _ => (none, some "Error: boom"))
        [(("notion", "n1"), ⟨"https://www.notion.so/y", "p", "pr", "t"⟩),
         (("gdoc", "g1"), ⟨"https://docs.google.com/document/d/g1", "p", "pr", "t"⟩)]).attempts
      = ([(("notion", "n1"), (⟨"https://www.notion.so/y", "p", "pr", "t"⟩ : UrlInfo)),
          (("gdoc", "g1"), ⟨"https://docs.google.com/document/d/g1", "p", "pr", "t"⟩)].filter
            (fun it => !skipsCdp false it)).map (fun it => it.2.url) ∧
    (run_sync_loop false false (fun _ _ => (none, some "Error: boom"))
        [(("notion", "n1"), ⟨"https://www.notion.so/y", "p", "pr", "t"⟩),
         (("gdoc", "g1"), ⟨"https://docs.google.com/document/d/g1", "p", "pr", "t"⟩)]).visited
      = [(("notion", "n1"), (⟨"https://www.notion.so/y", "p", "pr", "t"⟩ : UrlInfo)),
         (("gdoc", "g1"), ⟨"https://docs.google.com/document/d/g1", "p", "pr", "t"⟩)].map
          Prod.fst ∧
    (run_sync_loop false false (fun _ _ => (none, some "Error: boom"))
        [(("notion", "n1"), ⟨"https://www.notion.so/y", "p", "pr", "t"⟩),
         (("gdoc", "g1"), ⟨"https://docs.google.com/document/d/g1", "p", "pr", "t"⟩)]).failed
      = ([(("notion", "n1"), (⟨"https://www.notion.so/y", "p", "pr", "t"⟩ : UrlInfo)),
          (("gdoc", "g1"), ⟨"https://docs.google.com/document/d/g1", "p", "pr", "t"⟩)].filter
            (fun it => !skipsCdp false it &&
              fetchErr (fun _ _ => (none, some "Error: boom")) it)).length :=
  C7_rescrape_fail_fast_vs_sync_skip [⟨"a1", "Guide", "https://www.notion.so/x"⟩] false
    (fun _ => (none, some "CDP error: boom")) (fun _ _ => Except.ok 204)
    (fun _ _ => (none, some "Error: boom"))
    [(("notion", "n1"), ⟨"https://www.notion.so/y", "p", "pr", "t"⟩),
     (("gdoc", "g1"), ⟨"https://docs.google.com/document/d/g1", "p", "pr", "t"⟩)]
    (by decide)

theorem decode_char_step (c : Char) (bs : List Nat) (fuel : Nat) :
    decodeUtf8Go (fuel + 1) (utf8EncodeChar c ++ bs) = c :: decodeUtf8Go fuel bs := by
  have hv : c.toNat < 0xD800 ∨ (0xDFFF < c.toNat ∧ c.toNat < 0x110000) := c.valid
  by_cases h1 : c.toNat < 0x80
  · have he : utf8EncodeChar c = [c.toNat] := by
      unfold utf8EncodeChar
      rw [if_pos h1]
    rw [he]
    show decodeUtf8Go (fuel + 1) (c.toNat :: bs) = c :: decodeUtf8Go fuel bs
    conv_lhs => unfold decodeUtf8Go
    rw [if_pos h1, Char.ofNat_toNat]
  · by_cases h2 : c.toNat < 0x800
    · have he : utf8EncodeChar c = [0xC0 + c.toNat / 64, 0x80 + c.toNat % 64] := by
        unfold utf8EncodeChar
        rw [if_neg h1, if_pos h2]
      rw [he]
      have hb1 : ¬(0xC0 + c.toNat / 64 < 0x80) := by omega
      have hb2 : ¬(0xC0 + c.toNat / 64 < 0xC2) := by omega
      have hb3 : 0xC0 + c.toNat / 64 < 0xE0 := by omega
      have hcont : isContByte (0x80 + c.toNat % 64) = true := by
        unfold isContByte
        simp only [Bool.and_eq_true, decide_eq_true_eq]
        omega
      show decodeUtf8Go (fuel + 1)
          ((0xC0 + c.toNat / 64) :: (0x80 + c.toNat % 64) :: bs)
        = c :: decodeUtf8Go fuel bs
      conv_lhs => unfold decodeUtf8Go
      rw [if_neg hb1, if_neg hb2, if_pos hb3]
      simp only [hcont, if_true]
      have hval : (0xC0 + c.toNat / 64 - 0xC0) * 64 + (0x80 + c.toNat % 64 - 0x80)
          = c.toNat := by omega
      rw [hval, Char.ofNat_toNat]
    · by_cases h3 : c.toNat < 0x10000
      · have he : utf8EncodeChar c
            = [0xE0 + c.toNat / 4096, 0x80 + (c.toNat / 64) % 64, 0x80 + c.toNat % 64] := by
          unfold utf8EncodeChar
          rw [if_neg h1, if_neg h2, if_pos h3]
        rw [he]
        have hb1 : ¬(0xE0 + c.toNat / 4096 < 0x80) := by omega
        have hb2 : ¬(0xE0 + c.toNat / 4096 < 0xC2) := by omega
        have hb3 : ¬(0xE0 + c.toNat / 4096 < 0xE0) := by omega
        have hb4 : 0xE0 + c.toNat / 4096 < 0xF0 := by omega
        have hcont2 : cont2ok3 (0xE0 + c.toNat / 4096) (0x80 + (c.toNat / 64) % 64)
            = true := by
          unfold cont2ok3
          by_cases hE0 : 0xE0 + c.toNat / 4096 = 0xE0
          · rw [if_pos hE0]
            simp only [Bool.and_eq_true, decide_eq_true_eq]
            omega
          · by_cases hED : 0xE0 + c.toNat / 4096 = 0xED
            · rw [if_neg hE0, if_pos hED]
              simp only [Bool.and_eq_true, decide_eq_true_eq]
              omega
            · rw [if_neg hE0, if_neg hED]
              unfold isContByte
              simp only [Bool.and_eq_true, decide_eq_true_eq]
              omega
        have hcont3 : isContByte (0x80 + c.toNat % 64) = true := by
          unfold isContByte
          simp only [Bool.and_eq_true, decide_eq_true_eq]
          omega
        show decodeUtf8Go (fuel + 1)
            ((0xE0 + c.toNat / 4096) :: (0x80 + (c.toNat / 64) % 64)
              :: (0x80 + c.toNat % 64) :: bs)
          = c :: decodeUtf8Go fuel bs
        conv_lhs => unfold decodeUtf8Go
        rw [if_neg hb1, if_neg hb2, if_neg hb3, if_pos hb4]
        simp only [hcont2, hcont3, if_true]
        have hval : (0xE0 + c.toNat / 4096 - 0xE0) * 4096
            + (0x80 + (c.toNat / 64) % 64 - 0x80) * 64 + (0x80 + c.toNat % 64 - 0x80)
            = c.toNat := by omega
        rw [hval, Char.ofNat_toNat]
      · have h4 : c.toNat < 0x110000 := by omega
        have he : utf8EncodeChar c
            = [0xF0 + c.toNat / 262144, 0x80 + (c.toNat / 4096) % 64,
               0x80 + (c.toNat / 64) % 64, 0x80 + c.toNat % 64] := by
          unfold utf8EncodeChar
          rw [if_neg h1, if_neg h2, if_neg h3]
        rw [he]
        have hb1 : ¬(0xF0 + c.toNat / 262144 < 0x80) := by omega
        have hb2 : ¬(0xF0 + c.toNat / 262144 < 0xC2) := by omega
        have hb3 : ¬(0xF0 + c.toNat / 262144 < 0xE0) := by omega
        have hb4 : ¬(0xF0 + c.toNat / 262144 < 0xF0) := by omega
        have hb5 : 0xF0 + c.toNat / 262144 < 0xF5 := by omega
        have hcont2 : cont2ok4 (0xF0 + c.toNat / 262144) (0x80 + (c.toNat / 4096) % 64)
            = true := by
          unfold cont2ok4
          by_cases hF0 : 0xF0 + c.toNat / 262144 = 0xF0
          · rw [if_pos hF0]
            simp only [Bool.and_eq_true, decide_eq_true_eq]
            omega
          · by_cases hF4 : 0xF0 + c.toNat / 262144 = 0xF4
            · rw [if_neg hF0, if_pos hF4]
              simp only [Bool.and_eq_true, decide_eq_true_eq]
              omega
            · rw [if_neg hF0, if_neg hF4]
              unfold isContByte
              simp only [Bool.and_eq_true, decide_eq_true_eq]
              omega
        have hcont3 : isContByte (0x80 + (c.toNat / 64) % 64) = true := by
          unfold isContByte
          simp only [Bool.and_eq_true, decide_eq_true_eq]
          omega
        have hcont4 : isContByte (0x80 + c.toNat % 64) = true := by
          unfold isContByte
          simp only [Bool.and_eq_true, decide_eq_true_eq]
          omega
        show decodeUtf8Go (fuel + 1)
            ((0xF0 + c.toNat / 262144) :: (0x80 + (c.toNat / 4096) % 64)
              :: (0x80 + (c.toNat / 64) % 64) :: (0x80 + c.toNat % 64) :: bs)
          = c :: decodeUtf8Go fuel bs
        conv_lhs => unfold decodeUtf8Go
        rw [if_neg hb1, if_neg hb2, if_neg hb3, if_neg hb4, if_pos hb5]
        simp only [hcont2, hcont3, hcont4, if_true]
        have hval : (0xF0 + c.toNat / 262144 - 0xF0) * 262144
            + (0x80 + (c.toNat / 4096) % 64 - 0x80) * 4096
            + (0x80 + (c.toNat / 64) % 64 - 0x80) * 64
            + (0x80 + c.toNat % 64 - 0x80) = c.toNat := by omega
        rw [hval, Char.ofNat_toNat]

theorem decode_encode_append (s : List Char) :
    ∀ (bs : List Nat) (fuel : Nat),
    decodeUtf8Go (s.length + fuel) (utf8Encode s ++ bs) = s ++ decodeUtf8Go fuel bs := by
  induction s with
  | nil =>
    intro bs fuel
    simp [utf8Encode]
  | cons c cs ih =>
    intro bs fuel
    have he : utf8Encode (c :: cs) = utf8EncodeChar c ++ utf8Encode cs := by
      simp [utf8Encode]
    rw [he, List.append_assoc]
    have hlen : (c :: cs).length + fuel = (cs.length + fuel) + 1 := by
      simp only [List.length_cons]
      omega
    rw [hlen, decode_char_step, ih]
    simp

theorem utf8EncodeChar_length_pos (c : Char) : 1 ≤ (utf8EncodeChar c).length := by
  simp only [utf8EncodeChar]
  split_ifs <;> simp

theorem utf8Encode_length_ge (s : List Char) : s.length ≤ (utf8Encode s).length := by
  induction s with
  | nil => simp [utf8Encode]
  | cons c cs ih =>
    have he : utf8Encode (c :: cs) = utf8EncodeChar c ++ utf8Encode cs := by
      simp [utf8Encode]
    rw [he, List.length_append, List.length_cons]
    have := utf8EncodeChar_length_pos c
    omega

theorem decode_encode_roundtrip (s : List Char) :
    decodeUtf8Replace (utf8Encode s) = s := by
  unfold decodeUtf8Replace
  have hge := utf8Encode_length_ge s
  have hk : (utf8Encode s).length = s.length + ((utf8Encode s).length - s.length) := by
    omega
  rw [hk]
  have h2 := decode_encode_append s [] ((utf8Encode s).length - s.length)
  have h0 : decodeUtf8Go ((utf8Encode s).length - s.length) ([] : List Nat) = [] := by
    cases h : (utf8Encode s).length - s.length <;> rfl
  rw [h0, List.append_nil, List.append_nil] at h2
  exact h2

/-- C6 (confirmed).  The direct export retrieval maps every HTTP outcome of
the export URL to the typed result the spec describes: status 403 becomes
the access-denied failure, any other HTTPError status becomes the failure
carrying that status and reason, a network-level exception becomes the
generic fetch failure, and a 2xx body is decoded as UTF-8 text — losslessly
on every valid encoding (full roundtrip), with replacement characters and
no failure on invalid bytes (the decoder is total by construction). -/
theorem C6_gdoc_http_mapping (url : String)
    (hid : (findDId url.toList).isSome = true) :
    (∀ reason : String,
      fetch_gdoc url (fun _ => HttpOutcome.httpError 403 reason)
        = (none, some "Access denied (requires login)")) ∧
    (∀ (code : Nat) (reason : String), code ≠ 403 →
      fetch_gdoc url (fun _ => HttpOutcome.httpError code reason)
        = (none, some ("HTTP " ++ toString code ++ ": " ++ reason))) ∧
    (∀ msg : String,
      fetch_gdoc url (fun _ => HttpOutcome.netError msg)
        = (none, some ("Error: " ++ msg))) ∧
    (∀ body : List Nat,
      fetch_gdoc url (fun _ => HttpOutcome.success body)
        = (some (String.mk (decodeUtf8Replace body)), none)) ∧
    (∀ s : List Char, decodeUtf8Replace (utf8Encode s) = s) ∧
    decodeUtf8Replace [0xFF] = [replChar] ∧
    decodeUtf8Replace [0x61, 0xE0, 0x80, 0x62] = ['a', replChar, replChar, 'b'] := by
  obtain ⟨d, hd⟩ : ∃ d, findDId url.toList = some d := by
    cases hx : findDId url.toList with
    | none => rw [hx] at hid; simp at hid
    | some d => exact ⟨d, rfl⟩
  refine ⟨?_, ?_, ?_, ?_, decode_encode_roundtrip, by decide, by decide⟩
  · intro reason
    unfold fetch_gdoc
    rw [hd]
    unfold gdoc_response_map
    simp
  · intro code reason hc
    unfold fetch_gdoc
    rw [hd]
    unfold gdoc_response_map
    simp [hc]
  · intro msg
    unfold fetch_gdoc
    rw [hd]
    rfl
  · intro body
    unfold fetch_gdoc
    rw [hd]
    rfl

/-- C6 (witness): the theorem applied to a concrete document URL, checking
the mapping of a 500 response and of a 403 response. -/
theorem C6_witness :
    fetch_gdoc "https://docs.google.com/document/d/ABC"
        (fun _ => HttpOutcome.httpError 500 "Server Error")
      = (none, some "HTTP 500: Server Error") ∧
    fetch_gdoc "https://docs.google.com/document/d/ABC"
        (fun _ => HttpOutcome.httpError 403 "Forbidden")
      = (none, some "Access denied (requires login)") :=
  ⟨(C6_gdoc_http_mapping "https://docs.google.com/document/d/ABC" (by decide)).2.1
      500 "Server Error" (by decide),
   (C6_gdoc_http_mapping "https://docs.google.com/document/d/ABC" (by decide)).1
      "Forbidden"⟩

theorem preCode_texts_spec (oob : List String) :
    ∀ (doc : List HtmlNode) (k : Nat),
    preCodeTextsOf (preprocess_notion_html oob k doc)
      = mapIdxFrom (code_block_replacement oob) k (codeBlockTextsOf doc) := by
  intro doc
  induction doc with
  | nil => intro k; rfl
  | cons nd rest ih =>
    intro k
    cases nd with
    | codeBlock s =>
      simp only [preprocess_notion_html, codeBlockTextsOf, preCodeTextsOf,
        List.filterMap_cons, mapIdxFrom]
      rw [← preCodeTextsOf, ← codeBlockTextsOf, ih]
    | callout t =>
      simp only [preprocess_notion_html, codeBlockTextsOf, preCodeTextsOf,
        List.filterMap_cons]
      rw [← preCodeTextsOf, ← codeBlockTextsOf, ih]
    | other m =>
      simp only [preprocess_notion_html, codeBlockTextsOf, preCodeTextsOf,
        List.filterMap_cons]
      rw [← preCodeTextsOf, ← codeBlockTextsOf, ih]

/-- C8 (confirmed).  The node-level rewrite of preprocess_notion_html
replaces the i-th code-block element (in document order) by a pre/code
block whose text is exactly the processed i-th out-of-band text when one
exists and the processed static text otherwise; the processing strips a
recognized leading language label, as on the spec example
"python\npr" ++ "int(1)". -/
theorem C8_code_block_substitution :
    (∀ (oob : List String) (doc : List HtmlNode),
      preCodeTextsOf (preprocess_notion_html oob 0 doc)
        = mapIdxFrom (code_block_replacement oob) 0 (codeBlockTextsOf doc)) ∧
    (∀ (oob : List String) (i : Nat) (staticText : String) (h : i < oob.length),
      code_block_replacement oob i staticText = strip_code_text (oob.get ⟨i, h⟩)) ∧
    (∀ (oob : List String) (i : Nat) (staticText : String), oob.length ≤ i →
      code_block_replacement oob i staticText = strip_code_text staticText) ∧
    code_block_replacement ["python\nprint(1)"] 0 "static text" = "print(1)" ∧
    strip_code_text "Plain Text\nhello" = "hello" := by
  refine ⟨fun oob doc => preCode_texts_spec oob doc 0, ?_, ?_, by decide, by decide⟩
  · intro oob i staticText h
    unfold code_block_replacement
    rw [List.getElem?_eq_getElem h]
    rfl
  · intro oob i staticText h
    unfold code_block_replacement
    rw [List.getElem?_eq_none h]
    rfl

/-- C8 (witness): the substitution theorem applied at a concrete index with
a present out-of-band text. -/
theorem C8_witness :
    code_block_replacement ["python\nprint(1)", "x = 2"] 1 "ignored static"
      = strip_code_text (["python\nprint(1)", "x = 2"].get ⟨1, by decide⟩) :=
  C8_code_block_substitution.2.1 ["python\nprint(1)", "x = 2"] 1 "ignored static" (by decide)

theorem dropWhile_head_not (p : Char → Bool) (l : List Char) :
    ∀ c, (l.dropWhile p).head? = some c → p c = false := by
  induction l with
  | nil =>
    intro c h
    simp [List.dropWhile] at h
  | cons a rest ih =>
    intro c h
    by_cases hp : p a = true
    · rw [List.dropWhile_cons, if_pos hp] at h
      exact ih c h
    · rw [List.dropWhile_cons, if_neg hp] at h
      simp only [List.head?_cons, Option.some_inj] at h
      subst h
      simpa using hp

theorem pyStrip_head (l : List Char) :
    ∀ c, (pyStrip l).head? = some c → isPySpace c = false := by
  intro c hc
  unfold pyStrip at hc
  have hsplit : (l.dropWhile isPySpace).reverse
      = (l.dropWhile isPySpace).reverse.takeWhile isPySpace
        ++ (l.dropWhile isPySpace).reverse.dropWhile isPySpace :=
    (List.takeWhile_append_dropWhile ..).symm
  have hm2 : l.dropWhile isPySpace
      = ((l.dropWhile isPySpace).reverse.dropWhile isPySpace).reverse
        ++ ((l.dropWhile isPySpace).reverse.takeWhile isPySpace).reverse := by
    calc l.dropWhile isPySpace
        = (l.dropWhile isPySpace).reverse.reverse := (List.reverse_reverse _).symm
      _ = ((l.dropWhile isPySpace).reverse.takeWhile isPySpace
            ++ (l.dropWhile isPySpace).reverse.dropWhile isPySpace).reverse := by
            rw [← hsplit]
      _ = ((l.dropWhile isPySpace).reverse.dropWhile isPySpace).reverse
            ++ ((l.dropWhile isPySpace).reverse.takeWhile isPySpace).reverse :=
        List.reverse_append ..
  cases hrv : ((l.dropWhile isPySpace).reverse.dropWhile isPySpace).reverse with
  | nil =>
    rw [hrv] at hc
    simp at hc
  | cons x xs =>
    rw [hrv] at hc
    simp only [List.head?_cons, Option.some_inj] at hc
    subst hc
    have hmhead : (l.dropWhile isPySpace).head? = some x := by
      rw [hm2, hrv]
      rfl
    exact dropWhile_head_not isPySpace l x hmhead

theorem pyStrip_last (l : List Char) :
    ∀ c, (pyStrip l).getLast? = some c → isPySpace c = false := by
  intro c hc
  unfold pyStrip at hc
  rw [List.getLast?_eq_head?_reverse, List.reverse_reverse] at hc
  exact dropWhile_head_not isPySpace (l.dropWhile isPySpace).reverse c hc

theorem emitNl_min (k : Nat) : emitNl k = List.replicate (min k 2) '\n' := by
  unfold emitNl
  split_ifs with h
  · have hm : min k 2 = 2 := by omega
    rw [hm]
    rfl
  · have hm : min k 2 = k := by omega
    rw [hm]

theorem collapseNlAux_replicate (b : List Char) (k : Nat) :
    ∀ j, collapseNlAux j (List.replicate k '\n' ++ b) = collapseNlAux (j + k) b := by
  induction k with
  | zero => intro j; simp
  | succ n ih =>
    intro j
    rw [List.replicate_succ, List.cons_append]
    show collapseNlAux j ('\n' :: (List.replicate n '\n' ++ b)) = _
    conv_lhs => unfold collapseNlAux
    rw [if_pos rfl, ih (j + 1)]
    have harith : j + 1 + n = j + (n + 1) := by omega
    rw [harith]

theorem collapseNlAux_nonl_prefix (a : List Char) (ha : ∀ c ∈ a, c ≠ '\n') :
    ∀ t, collapseNlAux 0 (a ++ t) = a ++ collapseNlAux 0 t := by
  induction a with
  | nil => intro t; simp
  | cons c a' ih =>
    intro t
    have hc : c ≠ '\n' := ha c (by simp)
    rw [List.cons_append]
    show collapseNlAux 0 (c :: (a' ++ t)) = _
    conv_lhs => unfold collapseNlAux
    rw [if_neg hc]
    have he0 : emitNl 0 = [] := rfl
    rw [he0, ih (fun d hd => ha d (by simp [hd])) t]
    simp

theorem collapseNlAux_head_not_nl (b : List Char)
    (hb : ∀ c, b.head? = some c → c ≠ '\n') :
    ∀ j, collapseNlAux j b = emitNl j ++ collapseNlAux 0 b := by
  intro j
  cases b with
  | nil =>
    show collapseNlAux j [] = emitNl j ++ collapseNlAux 0 []
    have h1 : collapseNlAux j ([] : List Char) = emitNl j := rfl
    have h2 : collapseNlAux 0 ([] : List Char) = emitNl 0 := rfl
    rw [h1, h2]
    have he0 : emitNl 0 = [] := rfl
    rw [he0, List.append_nil]
  | cons c rest =>
    have hc : c ≠ '\n' := hb c rfl
    unfold collapseNlAux
    rw [if_neg hc, if_neg hc]
    have he0 : emitNl 0 = [] := rfl
    rw [he0]
    simp

/-- C9 (counterexample).  The claim says a run of three-or-more consecutive
blank lines collapses to exactly two blank lines.  The input below has a
run of exactly three blank lines (three empty entries when split on the
newline separator); the cleanup collapses it to ONE blank line, not two:
the regex replaces runs of three-or-more newline characters with two
newline characters, and two newline characters delimit a single blank
line. -/
theorem C9_counterexample :
    (splitNl "a\n\n\n\nb".toList).countP (fun ln => ln.isEmpty) = 3 ∧
    final_cleanup "a\n\n\n\nb" = "a\n\nb" ∧
    (splitNl (final_cleanup "a\n\n\n\nb").toList).countP (fun ln => ln.isEmpty) = 1 ∧
    ¬ (splitNl (final_cleanup "a\n\n\n\nb").toList).countP (fun ln => ln.isEmpty) = 2 := by
  refine ⟨by decide, by decide, by decide, by decide⟩

/-- C9 (amended).  In the final cleanup, every run of three-or-more
consecutive NEWLINE characters (equivalently, of two-or-more consecutive
blank lines) collapses to exactly two newlines, that is one blank line:
around a maximal newline run the collapse keeps short runs and caps runs of
three or more at two, recursing on the rest; and the final output is
trimmed — it never starts or ends with a whitespace character. -/
theorem C9_blank_line_collapse_and_trim :
    (∀ (a b : List Char) (k : Nat), (∀ c ∈ a, c ≠ '\n') →
      (∀ c, b.head? = some c → c ≠ '\n') →
      collapse_blank_lines (a ++ List.replicate k '\n' ++ b)
        = a ++ List.replicate (min k 2) '\n' ++ collapse_blank_lines b) ∧
    (∀ (s : String) (c : Char),
      ((final_cleanup s).toList.head? = some c → isPySpace c = false) ∧
      ((final_cleanup s).toList.getLast? = some c → isPySpace c = false)) := by
  constructor
  · intro a b k ha hb
    unfold collapse_blank_lines
    rw [List.append_assoc, collapseNlAux_nonl_prefix a ha,
      collapseNlAux_replicate b k 0, collapseNlAux_head_not_nl b hb,
      emitNl_min]
    simp [List.append_assoc]
  · intro s c
    constructor
    · intro hc
      exact pyStrip_head _ c hc
    · intro hc
      exact pyStrip_last _ c hc

/-- C9 (witness): the amended theorem applied to the concrete run of five
newlines between two letters, and the trim part applied to a concrete
padded string. -/
theorem C9_witness :
    collapse_blank_lines (['x'] ++ List.replicate 5 '\n' ++ ['y'])
      = ['x'] ++ List.replicate (min 5 2) '\n' ++ collapse_blank_lines ['y'] ∧
    isPySpace 'x' = false :=
  ⟨C9_blank_line_collapse_and_trim.1 ['x'] ['y'] 5 (by decide)
      (by intro c hc; simp at hc; subst hc; decide),
   (C9_blank_line_collapse_and_trim.2 "  x " 'x').1 (by decide)⟩
